import Mathlib

/-!
# git-remote-ipfs: the protocol loop of `main.go`

A shallow embedding of `speakGit` (main.go, lines 110-218) and of the library
calls it makes, followed by theorems about the embedding.

Conventions of the embedding.

* A Go string or byte slice is a list of characters (`Str`): UTF-8 text.
* A `bufio.Scanner` is represented by what it yields: the tokens returned by
  successive `Scan()`/`Text()` calls and the value of `Err()` once `Scan()`
  has returned false (`Scanned`).
* The object store and the two object fetchers (which are not defined in
  `main.go`) are oracles collected in `World`.
* Everything the loop does that is visible outside it is recorded, in order,
  as a list of `Event`s: bytes written to `w`, store and fetcher calls, values
  sent on `errc`, `os.Exit`, and a run-time panic.
-/

namespace GitRemoteIpfs

/-- A Go string (or byte slice holding text). -/
abbrev Str := List Char

/-- An error value produced by a library or by a fetcher; only its identity matters. -/
abbrev Cause := String

/-! ## Library functions used by `speakGit` -/

/-- Go `strings.HasPrefix(s, p)` and `bytes.HasPrefix(s, p)`. -/
def stringsHasPrefix (s p : Str) : Bool := p.isPrefixOf s

/-- Go `strings.Split(s, sep)` for a separator of one character: the fields
between the occurrences of `sep`; a string with `k` occurrences has `k + 1`
fields, so the result is never empty. -/
def stringsSplit (sep : Char) : Str → List Str
  | [] => [[]]
  | c :: cs =>
    if c = sep then [] :: stringsSplit sep cs
    else
      match stringsSplit sep cs with
      | [] => [[c]]
      | f :: fs => (c :: f) :: fs

/-- Go `unicode.IsSpace`: the code points with the White_Space property. -/
def unicodeIsSpace (c : Char) : Bool :=
  let n := c.toNat
  (9 ≤ n && n ≤ 13) || n == 32 || n == 0x85 || n == 0xA0 || n == 0x1680 ||
  (0x2000 ≤ n && n ≤ 0x200a) || n == 0x2028 || n == 0x2029 || n == 0x202f ||
  n == 0x205f || n == 0x3000

/-- Go `bytes.TrimSpace`: drop leading and trailing white space. -/
def bytesTrimSpace (s : Str) : Str :=
  ((s.dropWhile unicodeIsSpace).reverse.dropWhile unicodeIsSpace).reverse

/-! ## The reference map `ref2hash` -/

/-- The Go map `map[string]string`, kept as a list of (key, value) pairs with
distinct keys. The order of the list carries no meaning: iteration goes
through `World.mapRange`. -/
abbrev RefMap := List (Str × Str)

/-- Go `m[k] = v`: any earlier binding of `k` is replaced. -/
def mapSet (m : RefMap) (k v : Str) : RefMap :=
  (k, v) :: m.filter (fun p => p.1 != k)

/-- Go `v, ok := m[k]`. -/
def mapGet (m : RefMap) (k : Str) : Option Str := m.lookup k

/-! ## Readers, errors, events -/

/-- What a `bufio.Scanner` (default split function `ScanLines`) yields. -/
structure Scanned where
  /-- The successive values of `Text()` while `Scan()` returns true. -/
  tokens : List Str
  /-- The value of `Err()` after `Scan()` has returned false (`none` is nil). -/
  err : Option Cause

/-- The `io.ReadCloser` returned by `ipfsShell.Cat`, seen through the two
ways `speakGit` consumes one. -/
structure Reader where
  /-- Consumption by `bufio.NewScanner`. -/
  scanned : Scanned
  /-- Consumption by `ioutil.ReadAll`. -/
  readAll : Except Cause Str

/-- The error values `speakGit` builds, one constructor per `errgo` call site. -/
inductive HelperError where
  /-- Line 128: `failed to cat info/refs from %s`. -/
  | catInfoRefs (cause : Cause)
  /-- Line 136: `processing info/refs: what is this: %v`. -/
  | whatIsThis (hashRef : List Str)
  /-- Line 143: `ipfs.Cat(info/refs) scanner error`. -/
  | refsScanner (cause : Cause)
  /-- Line 148: `failed to cat HEAD from %s`. -/
  | catHEAD (cause : Cause)
  /-- Line 153: `failed to readAll HEAD from %s`. -/
  | readAllHEAD (cause : Cause)
  /-- Line 157: `illegal HEAD file from %s: %q`. -/
  | illegalHEAD (head : Str)
  /-- Line 164: `unknown HEAD reference %q`. -/
  | unknownHEAD (headRef : Str)
  /-- Line 179: `malformed 'fetch' command. %q`. -/
  | malformedFetch (text : Str)
  /-- Line 195: `fetchPackedObject() failed`. -/
  | fetchPacked (cause : Cause)
  /-- Line 206: `Error: default git speak: %q`. -/
  | defaultGitSpeak (text : Str)
  /-- Line 212: `scanner.Err()`. -/
  | scannerErr (cause : Cause)
  deriving DecidableEq, Repr

/-- The externally visible actions of `speakGit`. -/
inductive Event where
  /-- Bytes written to `w` by one `fmt.Fprintln` / `fmt.Fprintf` call. -/
  | write (bytes : Str)
  /-- The call `ipfsShell.Cat(filepath.Join(elems...))`. -/
  | cat (elems : List Str)
  /-- The call `fetchObject(sha1)`. -/
  | fetchObject (sha1 : Str)
  /-- The call `fetchPackedObject(sha1)`. -/
  | fetchPackedObject (sha1 : Str)
  /-- The statement `errc <- v` (`none` is nil). -/
  | send (v : Option HelperError)
  /-- The call `os.Exit(code)`. -/
  | exit (code : Nat)
  /-- A run-time panic `index out of range [index] with length len`. -/
  | panicIndex (index len : Nat)
  deriving DecidableEq, Repr

/-- How the handling of one input line leaves the read loop. -/
inductive Flow where
  /-- The loop goes on to the next `scanner.Scan()`. -/
  | next
  /-- The goroutine does not read on (`return`, `os.Exit` or panic). -/
  | stop
  deriving DecidableEq, Repr

/-- The environment of `speakGit`: the global `ipfsRepoPath`, the object
store, the two fetchers, and the order in which the Go run time ranges over
a map. -/
structure World where
  /-- The global `ipfsRepoPath`. -/
  ipfsRepoPath : Str
  /-- The composition `ipfsShell.Cat(filepath.Join(elems...))`. -/
  cat : List Str → Except Cause Reader
  /-- The function `fetchObject` (loose object); `none` is a nil error. -/
  fetchObject : Str → Option Cause
  /-- The function `fetchPackedObject`; `none` is a nil error. -/
  fetchPackedObject : Str → Option Cause
  /-- The order of `for ref, hash := range ref2hash` in the handling of input
  line number `n`: Go leaves it unspecified, and it may change from one
  `range` statement to the next. -/
  mapRange : Nat → RefMap → RefMap
  /-- A `range` visits every entry exactly once. -/
  mapRange_perm : ∀ n m, (mapRange n m).Perm m

/-! ## `speakGit` -/

/-- Lines 132-141: the scan of `info/refs` into `ref2hash`; the error case
carries the fields of the offending line. -/
def scanRefs : List Str → RefMap → Except (List Str) RefMap
  | [], ref2hash => .ok ref2hash
  | text :: rest, ref2hash =>
    match stringsSplit '\t' text with
    | [hash, ref] => scanRefs rest (mapSet ref2hash ref hash)
    | hashRef => .error hashRef

/-- The path elements of `filepath.Join(ipfsRepoPath, "info", "refs")`. -/
def refsPath (w : World) : List Str := [w.ipfsRepoPath, "info".toList, "refs".toList]

/-- The path elements of `filepath.Join(ipfsRepoPath, "HEAD")`. -/
def headPath (w : World) : List Str := [w.ipfsRepoPath, "HEAD".toList]

/-- One line of the `list` response: `fmt.Fprintf(w, "%s %s\n", hash, ref)`. -/
def refLine (p : Str × Str) : Event := .write (p.2 ++ " ".toList ++ p.1 ++ "\n".toList)

/-- Lines 124-174: the case `strings.HasPrefix(text, "list")`, for input line
number `n`. -/
def listCommand (w : World) (n : Nat) : List Event × Flow :=
  match w.cat (refsPath w) with
  | .error err => ([.cat (refsPath w), .send (some (.catInfoRefs err))], .stop)
  | .ok refsCat =>
    match scanRefs refsCat.scanned.tokens [] with
    | .error hashRef => ([.cat (refsPath w), .send (some (.whatIsThis hashRef))], .stop)
    | .ok ref2hash =>
      match refsCat.scanned.err with
      | some err => ([.cat (refsPath w), .send (some (.refsScanner err))], .stop)
      | none =>
        match w.cat (headPath w) with
        | .error err =>
          ([.cat (refsPath w), .cat (headPath w), .send (some (.catHEAD err))], .stop)
        | .ok headCat =>
          match headCat.readAll with
          | .error err =>
            ([.cat (refsPath w), .cat (headPath w), .send (some (.readAllHEAD err))], .stop)
          | .ok head =>
            if !stringsHasPrefix head "ref: ".toList then
              ([.cat (refsPath w), .cat (headPath w), .send (some (.illegalHEAD head))], .stop)
            else
              let headRef := bytesTrimSpace (head.drop 5)
              match mapGet ref2hash headRef with
              | none =>
                ([.cat (refsPath w), .cat (headPath w), .send (some (.unknownHEAD headRef))],
                  .stop)
              | some headHash =>
                ([.cat (refsPath w), .cat (headPath w),
                    .write (headHash ++ " HEAD\n".toList)]
                  ++ (w.mapRange n ref2hash).map refLine
                  ++ [.write "\n".toList], .next)

/-- Lines 176-197: the case `strings.HasPrefix(text, "fetch ")`. The index
expressions `fetchSplit[1]` and `fetchSplit[2]` of lines 183-184 are evaluated
before `fetchObject` is called; one that is out of range panics. -/
def fetchCommand (w : World) (text : Str) : List Event × Flow :=
  let fetchSplit := stringsSplit ' ' text
  if fetchSplit.length < 2 then
    ([.send (some (.malformedFetch text))], .stop)
  else
    match fetchSplit[1]? with
    | none => ([.panicIndex 1 fetchSplit.length], .stop)
    | some sha1 =>
      match fetchSplit[2]? with
      | none => ([.panicIndex 2 fetchSplit.length], .stop)
      | some _ =>
        match w.fetchObject sha1 with
        | none => ([.fetchObject sha1, .write "\n".toList], .next)
        | some _ =>
          match w.fetchPackedObject sha1 with
          | some err =>
            ([.fetchObject sha1, .fetchPackedObject sha1, .send (some (.fetchPacked err))],
              .stop)
          | none => ([.fetchObject sha1, .fetchPackedObject sha1], .next)

/-- Lines 115-208: the body of the read loop for input line number `n` with
text `text`: the events it causes and whether the loop reads on. -/
def speakGitLine (w : World) (n : Nat) (text : Str) : List Event × Flow :=
  if text = "capabilities".toList then
    ([.write "fetch\n".toList, .write "push\n".toList, .write "\n".toList], .next)
  else if stringsHasPrefix text "list".toList then
    listCommand w n
  else if stringsHasPrefix text "fetch ".toList then
    fetchCommand w text
  else if text = [] then
    ([.write "\n".toList, .write "\n".toList, .exit 0], .stop)
  else
    ([.send (some (.defaultGitSpeak text))], .stop)

/-- Lines 114-217: the read loop from input line number `n` on, over the
remaining tokens of the input scanner, and what follows the loop. -/
def speakGitLoop (w : World) : Nat → List Str → Option Cause → List Event
  | _, [], some err => [.send (some (.scannerErr err))]
  | _, [], none => [.send none]
  | n, text :: rest, err =>
    match speakGitLine w n text with
    | (events, .next) => events ++ speakGitLoop w (n + 1) rest err
    | (events, .stop) => events

/-- The function `speakGit(r, w)`: `input` is what the scanner over `r`
yields; the result is the trace of events. -/
def speakGit (w : World) (input : Scanned) : List Event :=
  speakGitLoop w 0 input.tokens input.err

/-- The bytes written to `w` along a trace. -/
def output : List Event → Str
  | [] => []
  | .write bytes :: rest => bytes ++ output rest
  | _ :: rest => output rest

/-- The values sent on `errc` along a trace. -/
def sent : List Event → List (Option HelperError)
  | [] => []
  | .send v :: rest => v :: sent rest
  | _ :: rest => sent rest

/-- The events that the lines `texts`, numbered from `n`, cause one after the
other when each of them lets the loop read on. -/
def linesEvents (w : World) : Nat → List Str → List Event
  | _, [] => []
  | n, text :: rest => (speakGitLine w n text).1 ++ linesEvents w (n + 1) rest

/-- Every line of `texts`, numbered from `n`, lets the loop read on. -/
def allNext (w : World) : Nat → List Str → Prop
  | _, [] => True
  | n, text :: rest => (speakGitLine w n text).2 = .next ∧ allNext w (n + 1) rest

/-- The (ref name, object id) pair that a manifest line `<oid>\t<refname>`
binds in `ref2hash` (line 139): `hashRef[1]` and `hashRef[0]`. -/
def manifestEntry (line : Str) : Str × Str :=
  match stringsSplit '\t' line with
  | [hash, ref] => (ref, hash)
  | _ => ([], [])

/-- The map that lines 133-141 build from well-formed lines, starting from
`m`: each line in turn is bound with `mapSet`. -/
def foldRefs (tokens : List Str) (m : RefMap) : RefMap :=
  tokens.foldl (fun m l => mapSet m (manifestEntry l).1 (manifestEntry l).2) m

/-! ## Concrete worlds used to evaluate the embedding -/

/-- Go `bufio.ScanLines` helper `dropCR`: drop one trailing carriage return. -/
def dropCR (s : Str) : Str :=
  if s.getLast? = some '\r' then s.dropLast else s

/-- The tokens a `bufio.Scanner` yields over `content` when no line reaches
`bufio.MaxScanTokenSize`: the lines, without their end-of-line marker; a
final line without newline is yielded when it is not empty. -/
def scanLines (content : Str) : List Str :=
  let fields := stringsSplit '\n' content
  (if fields.getLast? = some [] then fields.dropLast else fields).map dropCR

/-- A reader that delivers `content` without read error. -/
def readerOf (content : Str) : Reader :=
  ⟨⟨scanLines content, none⟩, .ok content⟩

/-- A store holding `refs` at `info/refs` and `head` at `HEAD` (`none`: the
path is absent) and nothing else, with fetchers that answer as given; maps
are ranged over in stored order. -/
def storeWorld (refs head : Option String) (loose packed : Str → Option Cause) : World where
  ipfsRepoPath := "/ipfs/Qm/repo.git".toList
  cat := fun elems =>
    if elems = ["/ipfs/Qm/repo.git".toList, "info".toList, "refs".toList] then
      match refs with
      | some content => .ok (readerOf content.toList)
      | none => .error "not found"
    else if elems = ["/ipfs/Qm/repo.git".toList, "HEAD".toList] then
      match head with
      | some content => .ok (readerOf content.toList)
      | none => .error "not found"
    else .error "not found"
  fetchObject := loose
  fetchPackedObject := packed
  mapRange := fun _ m => m
  mapRange_perm := fun _ _ => List.Perm.refl _

/-- A store without any content: every `Cat` fails. -/
def emptyWorld (loose packed : Str → Option Cause) : World where
  ipfsRepoPath := "/ipfs/Qm/repo.git".toList
  cat := fun _ => .error "not found"
  fetchObject := loose
  fetchPackedObject := packed
  mapRange := fun _ m => m
  mapRange_perm := fun _ _ => List.Perm.refl _

/-- The store of the scenario of the specification: two refs, `HEAD` pointing
at `refs/heads/master`; both fetchers succeed. -/
def scenarioWorld : World :=
  storeWorld
    (some ("aaaaaaaaaaaaaaaaaaaaaaaaaaaaaaaaaaaaaaa1\trefs/heads/master\n"
      ++ "bbbbbbbbbbbbbbbbbbbbbbbbbbbbbbbbbbbbbbb2\trefs/heads/dev\n"))
    (some "ref: refs/heads/master\n") (fun _ => none) (fun _ => none)

/-- A store whose manifest has two lines for `refs/heads/master`. -/
def duplicateWorld : World :=
  storeWorld
    (some ("aaaaaaaaaaaaaaaaaaaaaaaaaaaaaaaaaaaaaaa1\trefs/heads/master\n"
      ++ "bbbbbbbbbbbbbbbbbbbbbbbbbbbbbbbbbbbbbbb2\trefs/heads/master\n"))
    (some "ref: refs/heads/master\n") (fun _ => none) (fun _ => none)

/-- A store whose only ref name begins with a space, `HEAD` naming it. -/
def paddedWorld : World :=
  storeWorld (some "aaaaaaaaaaaaaaaaaaaaaaaaaaaaaaaaaaaaaaa1\t refs/heads/master\n")
    (some "ref:  refs/heads/master\n") (fun _ => none) (fun _ => none)

/-- A store whose manifest line has a space where the tab should be, `HEAD`
pointing at a ref that the manifest does not have. -/
def malformedWorld : World :=
  storeWorld (some "aaaaaaaaaaaaaaaaaaaaaaaaaaaaaaaaaaaaaaa1 refs/heads/master\n")
    (some "ref: refs/heads/missing\n") (fun _ => none) (fun _ => none)

/-- The store of the scenario with `HEAD` holding a bare object id. -/
def detachedWorld : World :=
  storeWorld (some "aaaaaaaaaaaaaaaaaaaaaaaaaaaaaaaaaaaaaaa1\trefs/heads/master\n")
    (some "aaaaaaaaaaaaaaaaaaaaaaaaaaaaaaaaaaaaaaa1\n") (fun _ => none) (fun _ => none)

/-- The store of the scenario with `HEAD` pointing at a ref that is absent. -/
def missingWorld : World :=
  storeWorld (some "aaaaaaaaaaaaaaaaaaaaaaaaaaaaaaaaaaaaaaa1\trefs/heads/master\n")
    (some "ref: refs/heads/missing\n") (fun _ => none) (fun _ => none)

/-- The three writes that answer `capabilities` (lines 120-122). -/
def capabilitiesResponse : List Event :=
  [.write "fetch\n".toList, .write "push\n".toList, .write "\n".toList]

/-- The world `w` as a loop meets it that starts where input line number `i`
of a run in `w` stands: the same store and the same fetchers, and the `range`
statements take the orders that `w` gives from line `i` on. -/
def shiftRange (w : World) (i : Nat) : World where
  ipfsRepoPath := w.ipfsRepoPath
  cat := w.cat
  fetchObject := w.fetchObject
  fetchPackedObject := w.fetchPackedObject
  mapRange := fun n m => w.mapRange (i + n) m
  mapRange_perm := fun n m => w.mapRange_perm (i + n) m

/-- The concatenation, in input order, of the output that each line of
`texts` (numbered from `n`) produces when it is the only line of the input. -/
def aloneOutput (w : World) : Nat → List Str → Str
  | _, [] => []
  | n, text :: rest =>
    output (speakGit (shiftRange w n) ⟨[text], none⟩) ++ aloneOutput w (n + 1) rest

/-! ## The top-level waiter of `main` -/

/-- Lines 103-105 of `main`: the value received from `ec` is passed to
`log.Error` when it is not nil, and then `main` returns. `log.Error` writes a
diagnostic and returns (ending the process is what `log.Fatal`, used at lines
70-91, does), and a Go program whose `main` returns exits with status 0. The
result is the list of errors logged and the exit status of the process. -/
def mainWait {ε : Type} (received : Option ε) : List ε × Nat :=
  match received with
  | some err => ([err], 0)
  | none => ([], 0)

/-! ## The dispatch of one input line -/

theorem hasPrefix_iff (s p : Str) : stringsHasPrefix s p = true ↔ ∃ t, s = p ++ t := by
  unfold stringsHasPrefix
  rw [List.isPrefixOf_iff_prefix]
  constructor
  · rintro ⟨t, rfl⟩
    exact ⟨t, rfl⟩
  · rintro ⟨t, rfl⟩
    exact ⟨t, rfl⟩

theorem speakGitLine_list (w : World) (n : Nat) (text : Str)
    (h : stringsHasPrefix text "list".toList = true) :
    speakGitLine w n text = listCommand w n := by
  obtain ⟨t, rfl⟩ := (hasPrefix_iff _ _).1 h
  have hc : ¬ ("list".toList ++ t = "capabilities".toList) := by
    intro hc
    have := congrArg (fun s => s.take 1) hc
    simp at this
  unfold speakGitLine
  rw [if_neg hc, if_pos h]

theorem speakGitLine_fetch (w : World) (n : Nat) (text : Str)
    (h : stringsHasPrefix text "fetch ".toList = true) :
    speakGitLine w n text = fetchCommand w text := by
  obtain ⟨t, rfl⟩ := (hasPrefix_iff _ _).1 h
  have hc : ¬ ("fetch ".toList ++ t = "capabilities".toList) := by
    intro hc
    have := congrArg (fun s => s.take 1) hc
    simp at this
  have hl : ¬ (stringsHasPrefix ("fetch ".toList ++ t) "list".toList = true) := by
    intro hl
    obtain ⟨u, hu⟩ := (hasPrefix_iff _ _).1 hl
    have := congrArg (fun s => s.take 1) hu
    simp at this
  unfold speakGitLine
  rw [if_neg hc, if_neg hl, if_pos h]

theorem speakGitLine_empty (w : World) (n : Nat) :
    speakGitLine w n [] =
      ([.write "\n".toList, .write "\n".toList, .exit 0], .stop) := by
  rfl

/-! ## The read loop -/

theorem speakGitLoop_stop (w : World) (n : Nat) (text : Str) (rest : List Str)
    (err : Option Cause) (events : List Event)
    (h : speakGitLine w n text = (events, .stop)) :
    speakGitLoop w n (text :: rest) err = events := by
  simp [speakGitLoop, h]

theorem speakGitLoop_next (w : World) (n : Nat) (text : Str) (rest : List Str)
    (err : Option Cause) (events : List Event)
    (h : speakGitLine w n text = (events, .next)) :
    speakGitLoop w n (text :: rest) err = events ++ speakGitLoop w (n + 1) rest err := by
  simp [speakGitLoop, h]

theorem speakGitLoop_append (w : World) (pre rest : List Str) (err : Option Cause) :
    ∀ n, allNext w n pre →
      speakGitLoop w n (pre ++ rest) err
        = linesEvents w n pre ++ speakGitLoop w (n + pre.length) rest err := by
  induction pre with
  | nil => intro n _; simp [linesEvents]
  | cons text pre ih =>
    intro n h
    obtain ⟨h1, h2⟩ := h
    have hline : speakGitLine w n text = ((speakGitLine w n text).1, .next) := by
      rw [← h1]
    rw [List.cons_append, speakGitLoop_next w n text _ err _ hline, ih (n + 1) h2]
    simp [linesEvents, Nat.add_assoc, Nat.add_comm 1]

/-! ## `strings.Split` -/

theorem stringsSplit_ne_nil (sep : Char) (s : Str) : stringsSplit sep s ≠ [] := by
  induction s with
  | nil => simp [stringsSplit]
  | cons c cs ih =>
    unfold stringsSplit
    split
    · simp
    · split <;> simp

theorem stringsSplit_append_sep (sep : Char) (a b : Str) (h : sep ∉ a) :
    stringsSplit sep (a ++ sep :: b) = a :: stringsSplit sep b := by
  induction a with
  | nil => simp [stringsSplit]
  | cons c a ih =>
    have hc : ¬ (c = sep) := fun e => h (by simp [e])
    have ha : sep ∉ a := fun e => h (by simp [e])
    rw [List.cons_append, stringsSplit, if_neg hc, ih ha]

theorem fetchLine_split (oid name : Str) (h : ' ' ∉ oid) :
    ∃ f fs, stringsSplit ' ' ("fetch ".toList ++ oid ++ ' ' :: name)
      = "fetch".toList :: oid :: f :: fs := by
  have h1 : "fetch ".toList ++ oid ++ ' ' :: name
      = "fetch".toList ++ ' ' :: (oid ++ ' ' :: name) := by
    simp
  have hf : ' ' ∉ "fetch".toList := by decide
  rw [h1, stringsSplit_append_sep _ _ _ hf, stringsSplit_append_sep _ _ _ h]
  cases hs : stringsSplit ' ' name with
  | nil => exact absurd hs (stringsSplit_ne_nil _ _)
  | cons f fs => exact ⟨f, fs, rfl⟩

theorem fetchLine_hasPrefix (oid name : Str) :
    stringsHasPrefix ("fetch ".toList ++ oid ++ ' ' :: name) "fetch ".toList = true :=
  (hasPrefix_iff _ _).2 ⟨oid ++ ' ' :: name, by simp⟩

/-- The handling of a line `fetch <oid> <refname>` comes down to the two
retrieval calls on `<oid>`. -/
theorem speakGitLine_fetchLine (w : World) (n : Nat) (oid name : Str) (h : ' ' ∉ oid) :
    speakGitLine w n ("fetch ".toList ++ oid ++ ' ' :: name) =
      match w.fetchObject oid with
      | none => ([.fetchObject oid, .write "\n".toList], .next)
      | some _ =>
        match w.fetchPackedObject oid with
        | some err =>
          ([.fetchObject oid, .fetchPackedObject oid, .send (some (.fetchPacked err))], .stop)
        | none => ([.fetchObject oid, .fetchPackedObject oid], .next) := by
  rw [speakGitLine_fetch w n _ (fetchLine_hasPrefix oid name)]
  obtain ⟨f, fs, hs⟩ := fetchLine_split oid name h
  unfold fetchCommand
  simp only [hs]
  simp

/-! ## Values sent on `errc` -/

theorem sent_append (a b : List Event) : sent (a ++ b) = sent a ++ sent b := by
  induction a with
  | nil => rfl
  | cons e a ih => cases e <;> simp [sent, ih]

theorem sent_map_refLine (m : RefMap) : sent (m.map refLine) = [] := by
  induction m with
  | nil => rfl
  | cons p m ih => simp [refLine, sent, ih]

theorem sent_listCommand_next (w : World) (n : Nat) (h : (listCommand w n).2 = .next) :
    sent (listCommand w n).1 = [] := by
  revert h
  unfold listCommand
  dsimp only
  repeat' split
  all_goals simp [sent, sent_append, sent_map_refLine]


theorem sent_fetchCommand_next (w : World) (text : Str) (h : (fetchCommand w text).2 = .next) :
    sent (fetchCommand w text).1 = [] := by
  revert h
  unfold fetchCommand
  dsimp only
  repeat' split
  all_goals simp [sent]

theorem sent_speakGitLine_next (w : World) (n : Nat) (text : Str)
    (h : (speakGitLine w n text).2 = .next) : sent (speakGitLine w n text).1 = [] := by
  revert h
  unfold speakGitLine
  split
  · intro _; simp [sent]
  · split
    · exact sent_listCommand_next w n
    · split
      · exact sent_fetchCommand_next w text
      · split <;> simp

theorem sent_linesEvents (w : World) (texts : List Str) :
    ∀ n, allNext w n texts → sent (linesEvents w n texts) = [] := by
  induction texts with
  | nil => intro n _; rfl
  | cons text texts ih =>
    intro n h
    rw [linesEvents, sent_append, sent_speakGitLine_next w n text h.1, ih (n + 1) h.2]
    rfl

/-! ## The claims on `fetch` -/

/-- On every line `fetch <oid> <refname>` whose loose retrieval fails and whose
packed retrieval succeeds, the two calls are the only events: nothing is
written. -/
theorem packedOnly_fetchLine (w : World) (n : Nat) (oid name : Str) (e : Cause)
    (hoid : ' ' ∉ oid) (hloose : w.fetchObject oid = some e)
    (hpacked : w.fetchPackedObject oid = none) :
    speakGitLine w n ("fetch ".toList ++ oid ++ ' ' :: name)
      = ([.fetchObject oid, .fetchPackedObject oid], .next) := by
  rw [speakGitLine_fetchLine w n oid name hoid, hloose, hpacked]

/-- C2 (evaluation of the code): on `fetch <oid> <refname>` with the loose
retrieval failing and the packed retrieval succeeding, the loop calls
`fetchObject` once, then `fetchPackedObject` once, reports no error and reads
on, but it writes nothing at all: the blank line of acknowledgement that the
loose path writes (line 189) is missing on the packed path. -/
theorem C2_packed_success_writes_nothing :
    speakGit (emptyWorld (fun _ => some "no loose object") (fun _ => none))
        ⟨scanLines "fetch aaaaaaaaaaaaaaaaaaaaaaaaaaaaaaaaaaaaaaa1 refs/heads/master\n".toList,
          none⟩
      = [.fetchObject "aaaaaaaaaaaaaaaaaaaaaaaaaaaaaaaaaaaaaaa1".toList,
         .fetchPackedObject "aaaaaaaaaaaaaaaaaaaaaaaaaaaaaaaaaaaaaaa1".toList,
         .send none]
    ∧ output (speakGit (emptyWorld (fun _ => some "no loose object") (fun _ => none))
        ⟨scanLines "fetch aaaaaaaaaaaaaaaaaaaaaaaaaaaaaaaaaaaaaaa1 refs/heads/master\n".toList,
          none⟩) = [] := by
  decide

/-- C3: for every command `fetch <oid> <refname>` whose loose retrieval of
`<oid>` succeeds, the line causes exactly the call `fetchObject(<oid>)`
followed by the write of one blank line: no call of `fetchPackedObject`, no
value sent on `errc`; its output is one newline, and the loop goes on with
the next line. -/
theorem C3_fetch_loose_success (w : World) (n : Nat) (oid name : Str) (rest : List Str)
    (err : Option Cause) (hoid : ' ' ∉ oid) (hloose : w.fetchObject oid = none) :
    speakGitLine w n ("fetch ".toList ++ oid ++ ' ' :: name)
        = ([.fetchObject oid, .write "\n".toList], .next)
    ∧ output (speakGitLine w n ("fetch ".toList ++ oid ++ ' ' :: name)).1 = "\n".toList
    ∧ sent (speakGitLine w n ("fetch ".toList ++ oid ++ ' ' :: name)).1 = []
    ∧ speakGitLoop w n (("fetch ".toList ++ oid ++ ' ' :: name) :: rest) err
        = [.fetchObject oid, .write "\n".toList] ++ speakGitLoop w (n + 1) rest err := by
  have h : speakGitLine w n ("fetch ".toList ++ oid ++ ' ' :: name)
      = ([.fetchObject oid, .write "\n".toList], .next) := by
    rw [speakGitLine_fetchLine w n oid name hoid, hloose]
  refine ⟨h, ?_, ?_, speakGitLoop_next w n _ rest err _ h⟩
  · rw [h]; rfl
  · rw [h]; rfl

theorem C3_fetch_loose_success_witness :
    (' ' ∉ "aaaa1".toList
      ∧ (emptyWorld (fun _ => none) (fun _ => some "no pack")).fetchObject "aaaa1".toList = none)
    ∧ speakGitLoop (emptyWorld (fun _ => none) (fun _ => some "no pack")) 0
        (("fetch ".toList ++ "aaaa1".toList ++ ' ' :: "refs/heads/master".toList) :: [[]]) none
      = [.fetchObject "aaaa1".toList, .write "\n".toList]
          ++ speakGitLoop (emptyWorld (fun _ => none) (fun _ => some "no pack")) (0 + 1)
              [[]] none :=
  ⟨⟨by decide, rfl⟩,
    (C3_fetch_loose_success (emptyWorld (fun _ => none) (fun _ => some "no pack")) 0
      "aaaa1".toList "refs/heads/master".toList [[]] none (by decide) rfl).2.2.2⟩

/-- C4: for every command `fetch <oid> <refname>` for which `fetchObject`
fails with `e1` and `fetchPackedObject` fails with `e2`, the line causes the
two calls, in that order, and then sends exactly one error, built from `e2`
alone; nothing is written and no later input line is processed. -/
theorem C4_fetch_both_fail (w : World) (n : Nat) (oid name : Str) (rest : List Str)
    (err : Option Cause) (e1 e2 : Cause) (hoid : ' ' ∉ oid)
    (hloose : w.fetchObject oid = some e1) (hpacked : w.fetchPackedObject oid = some e2) :
    speakGitLoop w n (("fetch ".toList ++ oid ++ ' ' :: name) :: rest) err
        = [.fetchObject oid, .fetchPackedObject oid, .send (some (.fetchPacked e2))]
    ∧ output (speakGitLoop w n (("fetch ".toList ++ oid ++ ' ' :: name) :: rest) err) = []
    ∧ sent (speakGitLoop w n (("fetch ".toList ++ oid ++ ' ' :: name) :: rest) err)
        = [some (.fetchPacked e2)] := by
  have h : speakGitLine w n ("fetch ".toList ++ oid ++ ' ' :: name)
      = ([.fetchObject oid, .fetchPackedObject oid, .send (some (.fetchPacked e2))], .stop) := by
    rw [speakGitLine_fetchLine w n oid name hoid, hloose, hpacked]
  have hl := speakGitLoop_stop w n _ rest err _ h
  refine ⟨hl, ?_, ?_⟩
  · rw [hl]; rfl
  · rw [hl]; rfl

theorem C4_fetch_both_fail_witness :
    (' ' ∉ "aaaa1".toList
      ∧ (emptyWorld (fun _ => some "no loose") (fun _ => some "no pack")).fetchObject
          "aaaa1".toList = some "no loose"
      ∧ (emptyWorld (fun _ => some "no loose") (fun _ => some "no pack")).fetchPackedObject
          "aaaa1".toList = some "no pack")
    ∧ speakGitLoop (emptyWorld (fun _ => some "no loose") (fun _ => some "no pack")) 0
        (("fetch ".toList ++ "aaaa1".toList ++ ' ' :: "refs/heads/master".toList)
          :: ["capabilities".toList]) none
      = [.fetchObject "aaaa1".toList, .fetchPackedObject "aaaa1".toList,
          .send (some (.fetchPacked "no pack"))] :=
  ⟨⟨by decide, rfl, rfl⟩,
    (C4_fetch_both_fail (emptyWorld (fun _ => some "no loose") (fun _ => some "no pack")) 0
      "aaaa1".toList "refs/heads/master".toList ["capabilities".toList] none
      "no loose" "no pack" (by decide) rfl rfl).1⟩

/-- C5 (evaluation of the code): the lines `fetch abc` and `fetch ` split on
the space into two fields, so the guard `len(fetchSplit) < 2` lets them
through and the index expression `fetchSplit[2]` of line 184 panics with
index out of range: nothing is sent on `errc`. -/
theorem C5_fetch_two_fields_panics :
    speakGit (emptyWorld (fun _ => none) (fun _ => none))
        ⟨scanLines "fetch abc\n".toList, none⟩ = [.panicIndex 2 2]
    ∧ speakGit (emptyWorld (fun _ => none) (fun _ => none))
        ⟨scanLines "fetch \n".toList, none⟩ = [.panicIndex 2 2]
    ∧ sent (speakGit (emptyWorld (fun _ => none) (fun _ => none))
        ⟨scanLines "fetch abc\n".toList, none⟩) = [] := by
  decide

/-! ## The empty line -/

/-- C10: for every input in which the lines before the first empty line all
let the loop read on, the loop causes the events of those lines, then writes
two blank lines and calls `os.Exit(0)`; the trace ends there whatever follows
the empty line, and nothing is sent on `errc`. -/
theorem C10_empty_line_exits (w : World) (pre rest : List Str) (err : Option Cause)
    (h : allNext w 0 pre) :
    speakGit w ⟨pre ++ [] :: rest, err⟩
        = linesEvents w 0 pre ++ [.write "\n".toList, .write "\n".toList, .exit 0]
    ∧ sent (speakGit w ⟨pre ++ [] :: rest, err⟩) = [] := by
  have ht : speakGit w ⟨pre ++ [] :: rest, err⟩
      = linesEvents w 0 pre ++ [.write "\n".toList, .write "\n".toList, .exit 0] := by
    unfold speakGit
    rw [speakGitLoop_append w pre ([] :: rest) err 0 h,
      speakGitLoop_stop w _ [] rest err _ (speakGitLine_empty w _)]
  refine ⟨ht, ?_⟩
  rw [ht, sent_append, sent_linesEvents w pre 0 h]
  rfl

theorem C10_empty_line_exits_witness :
    allNext (emptyWorld (fun _ => none) (fun _ => none)) 0 ["capabilities".toList]
    ∧ speakGit (emptyWorld (fun _ => none) (fun _ => none))
        ⟨["capabilities".toList] ++ [] :: ["capabilities".toList], none⟩
      = linesEvents (emptyWorld (fun _ => none) (fun _ => none)) 0 ["capabilities".toList]
          ++ [.write "\n".toList, .write "\n".toList, .exit 0] :=
  ⟨⟨by decide, trivial⟩,
    (C10_empty_line_exits (emptyWorld (fun _ => none) (fun _ => none))
      ["capabilities".toList] ["capabilities".toList] none ⟨by decide, trivial⟩).1⟩

/-! ## `bytes.TrimSpace` -/

theorem dropWhile_append_all (p : Char → Bool) (a b : Str) (h : ∀ c ∈ a, p c = true) :
    (a ++ b).dropWhile p = b.dropWhile p := by
  induction a with
  | nil => rfl
  | cons c a ih =>
    have hc : p c = true := h c (by simp)
    simp only [List.cons_append, List.dropWhile_cons, hc, if_true]
    exact ih (fun d hd => h d (by simp [hd]))

theorem dropWhile_all (p : Char → Bool) (a : Str) (h : ∀ c ∈ a, p c = true) :
    a.dropWhile p = [] := by
  have := dropWhile_append_all p a [] h
  simpa using this

theorem dropWhile_append_right (p : Char → Bool) (a ws : Str) (h : ∀ c ∈ ws, p c = true) :
    (a ++ ws).dropWhile p = [] ∧ a.dropWhile p = []
      ∨ (a ++ ws).dropWhile p = a.dropWhile p ++ ws := by
  induction a with
  | nil => left; exact ⟨by simpa using dropWhile_all p ws h, rfl⟩
  | cons c a ih =>
    by_cases hc : p c = true
    · simpa [List.dropWhile_cons, hc] using ih
    · right
      simp [List.dropWhile_cons, hc]

/-- Trailing white space does not change the result of `bytes.TrimSpace`. -/
theorem bytesTrimSpace_append (s ws : Str) (h : ∀ c ∈ ws, unicodeIsSpace c = true) :
    bytesTrimSpace (s ++ ws) = bytesTrimSpace s := by
  unfold bytesTrimSpace
  rcases dropWhile_append_right unicodeIsSpace s ws h with ⟨h1, h2⟩ | h1
  · rw [h1, h2]
  · rw [h1, List.reverse_append,
      dropWhile_append_all unicodeIsSpace ws.reverse _ (fun c hc => h c (by simpa using hc))]

/-! ## The scan of `info/refs` -/

/-- On well-formed lines the scan succeeds and builds `foldRefs`. -/
theorem scanRefs_ok (tokens : List Str)
    (h : ∀ l ∈ tokens, (stringsSplit '\t' l).length = 2) :
    ∀ m, scanRefs tokens m = .ok (foldRefs tokens m) := by
  induction tokens with
  | nil => intro m; rfl
  | cons l ts ih =>
    intro m
    obtain ⟨hash, ref, hs⟩ := List.length_eq_two.1 (h l (by simp))
    have he : manifestEntry l = (ref, hash) := by simp [manifestEntry, hs]
    rw [scanRefs]
    simp only [hs]
    rw [ih (fun l hl => h l (by simp [hl])), foldRefs, foldRefs, List.foldl_cons, he]

theorem scanRefs_error (tokens : List Str)
    (h : ∃ l ∈ tokens, (stringsSplit '\t' l).length ≠ 2) :
    ∀ m, ∃ l ∈ tokens, (stringsSplit '\t' l).length ≠ 2
      ∧ scanRefs tokens m = .error (stringsSplit '\t' l) := by
  induction tokens with
  | nil => simp at h
  | cons l ts ih =>
    intro m
    by_cases hl : (stringsSplit '\t' l).length = 2
    · obtain ⟨hash, ref, hs⟩ := List.length_eq_two.1 hl
      have hts : ∃ l ∈ ts, (stringsSplit '\t' l).length ≠ 2 := by
        obtain ⟨b, hb, hb2⟩ := h
        rcases List.mem_cons.1 hb with rfl | hb
        · exact absurd hl hb2
        · exact ⟨b, hb, hb2⟩
      obtain ⟨b, hb, hb2, hb3⟩ := ih hts (mapSet m ref hash)
      refine ⟨b, by simp [hb], hb2, ?_⟩
      rw [scanRefs]
      simp only [hs]
      exact hb3
    · refine ⟨l, by simp, hl, ?_⟩
      rw [scanRefs]
      split
      · rename_i hash ref heq
        exact absurd (by rw [heq]; rfl) hl
      · rfl

/-! ## The reference map -/

theorem lookup_filter_ne (m : RefMap) (k k' : Str) (h : k' ≠ k) :
    (m.filter (fun p => p.1 != k)).lookup k' = m.lookup k' := by
  induction m with
  | nil => rfl
  | cons p m ih =>
    obtain ⟨a, b⟩ := p
    by_cases ha : a = k
    · subst ha
      have hk : (k' == a) = false := by simpa using h
      simp [List.filter_cons, List.lookup_cons, hk, ih]
    · have hne : (a != k) = true := by simpa using ha
      simp only [List.filter_cons, hne, if_true, List.lookup_cons, ih]

theorem mapGet_mapSet_self (m : RefMap) (k v : Str) : mapGet (mapSet m k v) k = some v := by
  simp [mapGet, mapSet, List.lookup_cons]

theorem mapGet_mapSet_ne (m : RefMap) (k v k' : Str) (h : k' ≠ k) :
    mapGet (mapSet m k v) k' = mapGet m k' := by
  have hk : (k' == k) = false := by simpa using h
  simp [mapGet, mapSet, List.lookup_cons, hk, lookup_filter_ne m k k' h]

theorem foldRefs_cons (l : Str) (ts : List Str) (m : RefMap) :
    foldRefs (l :: ts) m = foldRefs ts (mapSet m (manifestEntry l).1 (manifestEntry l).2) := by
  rfl

/-- A key that no line binds keeps the value it had before the scan. -/
theorem mapGet_foldRefs_notin (k : Str) (tokens : List Str) :
    ∀ m, k ∉ tokens.map (fun l => (manifestEntry l).1) →
      mapGet (foldRefs tokens m) k = mapGet m k := by
  induction tokens with
  | nil => intro m _; rfl
  | cons l ts ih =>
    intro m h
    have h1 : k ≠ (manifestEntry l).1 := fun e => h (by simp [e])
    have h2 : k ∉ ts.map (fun l => (manifestEntry l).1) := fun e => h (by simp at e ⊢; simp [e])
    rw [foldRefs_cons, ih _ h2, mapGet_mapSet_ne _ _ _ _ h1]

/-- When no two lines bind the same ref name, a bound ref name maps to the
object id of its line. -/
theorem mapGet_foldRefs_mem (k v : Str) (tokens : List Str) :
    ∀ m, (tokens.map (fun l => (manifestEntry l).1)).Nodup →
      (k, v) ∈ tokens.map manifestEntry →
      mapGet (foldRefs tokens m) k = some v := by
  induction tokens with
  | nil => intro m _ h; simp at h
  | cons l ts ih =>
    intro m hnd hmem
    rw [List.map_cons, List.nodup_cons] at hnd
    rw [List.map_cons, List.mem_cons] at hmem
    rw [foldRefs_cons]
    rcases hmem with he | hmem
    · have hk : (manifestEntry l).1 = k := by rw [← he]
      have hv : (manifestEntry l).2 = v := by rw [← he]
      rw [mapGet_foldRefs_notin k ts _ (by rw [← hk]; exact hnd.1), hk, hv,
        mapGet_mapSet_self]
    · exact ih _ hnd.2 hmem

/-- When no two lines bind the same ref name, the map holds exactly one entry
per line (next to the entries of `m`, if their keys are not bound again). -/
theorem foldRefs_perm (tokens : List Str) :
    ∀ m : RefMap, (tokens.map (fun l => (manifestEntry l).1)).Nodup →
      (∀ p ∈ m, p.1 ∉ tokens.map (fun l => (manifestEntry l).1)) →
      (foldRefs tokens m).Perm (tokens.map manifestEntry ++ m) := by
  induction tokens with
  | nil => intro m _ _; exact List.Perm.refl _
  | cons l ts ih =>
    intro m hnd hm
    rw [List.map_cons, List.nodup_cons] at hnd
    have hfilter : m.filter (fun p => p.1 != (manifestEntry l).1) = m := by
      rw [List.filter_eq_self]
      intro p hp
      have := hm p hp
      simp only [List.map_cons, List.mem_cons, not_or] at this
      simpa using this.1
    have hm2 : ∀ p ∈ mapSet m (manifestEntry l).1 (manifestEntry l).2,
        p.1 ∉ ts.map (fun l => (manifestEntry l).1) := by
      intro p hp
      rw [mapSet, hfilter, List.mem_cons] at hp
      rcases hp with rfl | hp
      · exact hnd.1
      · have := hm p hp
        simp only [List.map_cons, List.mem_cons, not_or] at this
        exact this.2
    rw [foldRefs_cons]
    refine (ih _ hnd.2 hm2).trans ?_
    rw [mapSet, hfilter, List.map_cons, List.cons_append]
    exact List.perm_middle

/-! ## The claims on `list` -/

/-- Once `info/refs` has been scanned without error and `HEAD` has been read,
the `list` case comes down to the prefix test and the lookup of the HEAD ref. -/
theorem listCommand_resolved (w : World) (n : Nat) (refsCat headCat : Reader) (head : Str)
    (hrefs : w.cat (refsPath w) = .ok refsCat)
    (hwf : ∀ l ∈ refsCat.scanned.tokens, (stringsSplit '\t' l).length = 2)
    (hscan : refsCat.scanned.err = none)
    (hhead : w.cat (headPath w) = .ok headCat)
    (hread : headCat.readAll = .ok head) :
    listCommand w n =
      if !stringsHasPrefix head "ref: ".toList then
        ([.cat (refsPath w), .cat (headPath w), .send (some (.illegalHEAD head))], .stop)
      else
        match mapGet (foldRefs refsCat.scanned.tokens []) (bytesTrimSpace (head.drop 5)) with
        | none =>
          ([.cat (refsPath w), .cat (headPath w),
              .send (some (.unknownHEAD (bytesTrimSpace (head.drop 5))))], .stop)
        | some headHash =>
          ([.cat (refsPath w), .cat (headPath w), .write (headHash ++ " HEAD\n".toList)]
            ++ (w.mapRange n (foldRefs refsCat.scanned.tokens [])).map refLine
            ++ [.write "\n".toList], .next) := by
  unfold listCommand
  rw [hrefs]
  simp only [scanRefs_ok _ hwf, hscan, hhead, hread]

theorem refsPath_ne_headPath (w : World) : refsPath w ≠ headPath w := by
  intro h
  have := congrArg List.length h
  simp [refsPath, headPath] at this

/-- C1 (amended): for every manifest in which each line splits into exactly
two tab-separated fields, no two lines carry the same ref name and some line
binds ref `R` to `oid`, `R` carrying no white space at either end, and every
HEAD content `ref: R` followed by white space `ws`, a line beginning with
`list` requests `info/refs` and `HEAD` from the store and writes first the
line `<oid> HEAD`, then one line `<oid> <refname>` per manifest line, in some
order, then one blank line, and nothing else; the loop reads on. -/
theorem C1_list_response (w : World) (n : Nat) (text : Str) (refsCat headCat : Reader)
    (R oid ws : Str)
    (hlist : stringsHasPrefix text "list".toList = true)
    (hrefs : w.cat (refsPath w) = .ok refsCat)
    (hscan : refsCat.scanned.err = none)
    (hwf : ∀ l ∈ refsCat.scanned.tokens, (stringsSplit '\t' l).length = 2)
    (hnodup : (refsCat.scanned.tokens.map (fun l => (manifestEntry l).1)).Nodup)
    (hR : (R, oid) ∈ refsCat.scanned.tokens.map manifestEntry)
    (hhead : w.cat (headPath w) = .ok headCat)
    (hread : headCat.readAll = .ok ("ref: ".toList ++ R ++ ws))
    (hws : ∀ c ∈ ws, unicodeIsSpace c = true)
    (htrim : bytesTrimSpace R = R) :
    ∃ refLines : List Event,
      refLines.Perm (refsCat.scanned.tokens.map (fun l => refLine (manifestEntry l)))
      ∧ speakGitLine w n text
          = ([.cat (refsPath w), .cat (headPath w), .write (oid ++ " HEAD\n".toList)]
              ++ refLines ++ [.write "\n".toList], .next) := by
  refine ⟨(w.mapRange n (foldRefs refsCat.scanned.tokens [])).map refLine, ?_, ?_⟩
  · have h1 := (foldRefs_perm refsCat.scanned.tokens [] hnodup (by simp))
    rw [List.append_nil] at h1
    have h2 := ((w.mapRange_perm n _).trans h1).map refLine
    simpa using h2
  · have hp : stringsHasPrefix ("ref: ".toList ++ R ++ ws) "ref: ".toList = true :=
      (hasPrefix_iff _ _).2 ⟨R ++ ws, by simp⟩
    have hd : ("ref: ".toList ++ R ++ ws).drop 5 = R ++ ws := by
      simp
    rw [speakGitLine_list w n text hlist,
      listCommand_resolved w n refsCat headCat _ hrefs hwf hscan hhead hread]
    simp only [hp, hd, bytesTrimSpace_append R ws hws, htrim,
      mapGet_foldRefs_mem R oid _ [] hnodup hR]
    rfl

theorem C1_list_response_witness :
    ∃ refLines : List Event,
      refLines.Perm
        ((scanLines ("aaaaaaaaaaaaaaaaaaaaaaaaaaaaaaaaaaaaaaa1\trefs/heads/master\n"
            ++ "bbbbbbbbbbbbbbbbbbbbbbbbbbbbbbbbbbbbbbb2\trefs/heads/dev\n").toList).map
          (fun l => refLine (manifestEntry l)))
      ∧ speakGitLine scenarioWorld 0 "list".toList
          = ([.cat (refsPath scenarioWorld), .cat (headPath scenarioWorld),
                .write ("aaaaaaaaaaaaaaaaaaaaaaaaaaaaaaaaaaaaaaa1".toList ++ " HEAD\n".toList)]
              ++ refLines ++ [.write "\n".toList], .next) :=
  C1_list_response scenarioWorld 0 "list".toList
    (readerOf ("aaaaaaaaaaaaaaaaaaaaaaaaaaaaaaaaaaaaaaa1\trefs/heads/master\n"
      ++ "bbbbbbbbbbbbbbbbbbbbbbbbbbbbbbbbbbbbbbb2\trefs/heads/dev\n").toList)
    (readerOf "ref: refs/heads/master\n".toList)
    "refs/heads/master".toList "aaaaaaaaaaaaaaaaaaaaaaaaaaaaaaaaaaaaaaa1".toList "\n".toList
    (by decide) rfl rfl (by decide) (by decide) (by decide) rfl rfl (by decide) (by decide)

/-- C1 (as stated) fails in two ways. With two manifest lines for
`refs/heads/master`, both well-formed, the response has one ref line, not one
per manifest line, so no response of the stated shape exists. With a ref name
that begins with a space and `HEAD` holding `ref: ` followed by that name, the
trimmed name is looked up, is not found, and nothing is written. -/
theorem C1_counterexample :
    ((∀ l ∈ (readerOf ("aaaaaaaaaaaaaaaaaaaaaaaaaaaaaaaaaaaaaaa1\trefs/heads/master\n"
            ++ "bbbbbbbbbbbbbbbbbbbbbbbbbbbbbbbbbbbbbbb2\trefs/heads/master\n").toList).scanned.tokens,
          (stringsSplit '\t' l).length = 2)
      ∧ duplicateWorld.cat (refsPath duplicateWorld)
          = .ok (readerOf ("aaaaaaaaaaaaaaaaaaaaaaaaaaaaaaaaaaaaaaa1\trefs/heads/master\n"
            ++ "bbbbbbbbbbbbbbbbbbbbbbbbbbbbbbbbbbbbbbb2\trefs/heads/master\n").toList)
      ∧ duplicateWorld.cat (headPath duplicateWorld)
          = .ok (readerOf ("ref: ".toList ++ "refs/heads/master".toList ++ "\n".toList))
      ∧ speakGitLine duplicateWorld 0 "list".toList
          = ([.cat (refsPath duplicateWorld), .cat (headPath duplicateWorld),
              .write "bbbbbbbbbbbbbbbbbbbbbbbbbbbbbbbbbbbbbbb2 HEAD\n".toList,
              .write "bbbbbbbbbbbbbbbbbbbbbbbbbbbbbbbbbbbbbbb2 refs/heads/master\n".toList,
              .write "\n".toList], .next)
      ∧ ¬ ∃ (oid : Str) (refLines : List Event),
          refLines.Perm
            ((readerOf ("aaaaaaaaaaaaaaaaaaaaaaaaaaaaaaaaaaaaaaa1\trefs/heads/master\n"
                ++ "bbbbbbbbbbbbbbbbbbbbbbbbbbbbbbbbbbbbbbb2\trefs/heads/master\n").toList
              ).scanned.tokens.map (fun l => refLine (manifestEntry l)))
          ∧ speakGitLine duplicateWorld 0 "list".toList
              = ([.cat (refsPath duplicateWorld), .cat (headPath duplicateWorld),
                    .write (oid ++ " HEAD\n".toList)]
                  ++ refLines ++ [.write "\n".toList], .next))
    ∧ ((" refs/heads/master".toList, "aaaaaaaaaaaaaaaaaaaaaaaaaaaaaaaaaaaaaaa1".toList)
          ∈ (readerOf "aaaaaaaaaaaaaaaaaaaaaaaaaaaaaaaaaaaaaaa1\t refs/heads/master\n".toList
              ).scanned.tokens.map manifestEntry
      ∧ paddedWorld.cat (refsPath paddedWorld)
          = .ok (readerOf "aaaaaaaaaaaaaaaaaaaaaaaaaaaaaaaaaaaaaaa1\t refs/heads/master\n".toList)
      ∧ paddedWorld.cat (headPath paddedWorld)
          = .ok (readerOf ("ref: ".toList ++ " refs/heads/master".toList ++ "\n".toList))
      ∧ speakGitLine paddedWorld 0 "list".toList
          = ([.cat (refsPath paddedWorld), .cat (headPath paddedWorld),
              .send (some (.unknownHEAD "refs/heads/master".toList))], .stop)) := by
  refine ⟨⟨by decide, rfl, rfl, by decide, ?_⟩, by decide, rfl, rfl, by decide⟩
  rintro ⟨oid, refLines, hperm, h⟩
  have hlen := hperm.length_eq
  have h4 : (speakGitLine duplicateWorld 0 "list".toList).1.length = 5 := by decide
  rw [h] at h4
  have h2 : ((readerOf ("aaaaaaaaaaaaaaaaaaaaaaaaaaaaaaaaaaaaaaa1\trefs/heads/master\n"
      ++ "bbbbbbbbbbbbbbbbbbbbbbbbbbbbbbbbbbbbbbb2\trefs/heads/master\n").toList
      ).scanned.tokens.map (fun l => refLine (manifestEntry l))).length = 2 := by decide
  rw [h2] at hlen
  simp at h4
  omega

/-- C6 (amended): for every manifest in which each line splits into exactly
two tab-separated fields (the empty manifest included) and every HEAD content
that starts with `ref: ` and whose remainder, trimmed of white space, is not
a ref name of the manifest, a line beginning with `list` requests `info/refs`
and `HEAD`, sends the unknown-HEAD-reference error carrying the trimmed name,
writes nothing, and the loop processes no further line. -/
theorem C6_unknown_head (w : World) (n : Nat) (text : Str) (rest : List Str)
    (err : Option Cause) (refsCat headCat : Reader) (head : Str)
    (hlist : stringsHasPrefix text "list".toList = true)
    (hrefs : w.cat (refsPath w) = .ok refsCat)
    (hscan : refsCat.scanned.err = none)
    (hwf : ∀ l ∈ refsCat.scanned.tokens, (stringsSplit '\t' l).length = 2)
    (hhead : w.cat (headPath w) = .ok headCat)
    (hread : headCat.readAll = .ok head)
    (hstart : stringsHasPrefix head "ref: ".toList = true)
    (habsent : bytesTrimSpace (head.drop 5)
      ∉ refsCat.scanned.tokens.map (fun l => (manifestEntry l).1)) :
    speakGitLoop w n (text :: rest) err
        = [.cat (refsPath w), .cat (headPath w),
            .send (some (.unknownHEAD (bytesTrimSpace (head.drop 5))))]
    ∧ output (speakGitLoop w n (text :: rest) err) = [] := by
  have h : speakGitLine w n text
      = ([.cat (refsPath w), .cat (headPath w),
            .send (some (.unknownHEAD (bytesTrimSpace (head.drop 5))))], .stop) := by
    rw [speakGitLine_list w n text hlist,
      listCommand_resolved w n refsCat headCat head hrefs hwf hscan hhead hread]
    have hget : mapGet (foldRefs refsCat.scanned.tokens []) (bytesTrimSpace (head.drop 5))
        = none := by
      rw [mapGet_foldRefs_notin _ _ [] habsent]
      rfl
    simp only [hstart, hget]
    rfl
  have hl := speakGitLoop_stop w n text rest err _ h
  refine ⟨hl, ?_⟩
  rw [hl]
  rfl

theorem C6_unknown_head_witness :
    speakGitLoop missingWorld 0 ["list".toList, "capabilities".toList] none
        = [.cat (refsPath missingWorld), .cat (headPath missingWorld),
            .send (some (.unknownHEAD
              (bytesTrimSpace ("ref: refs/heads/missing\n".toList.drop 5))))]
    ∧ output (speakGitLoop missingWorld 0 ["list".toList, "capabilities".toList] none) = [] :=
  C6_unknown_head missingWorld 0 "list".toList ["capabilities".toList] none
    (readerOf "aaaaaaaaaaaaaaaaaaaaaaaaaaaaaaaaaaaaaaa1\trefs/heads/master\n".toList)
    (readerOf "ref: refs/heads/missing\n".toList) "ref: refs/heads/missing\n".toList
    (by decide) rfl rfl (by decide) rfl rfl (by decide) (by decide)

/-- C6 (as stated) fails on a manifest that is not well-formed: the manifest
line has a space where the tab should be, `HEAD` starts with `ref: ` and its
trimmed remainder `refs/heads/missing` is no field of any manifest line, yet
the error sent is the malformed-manifest one, and `HEAD` is not even read. -/
theorem C6_counterexample :
    malformedWorld.cat (refsPath malformedWorld)
        = .ok (readerOf "aaaaaaaaaaaaaaaaaaaaaaaaaaaaaaaaaaaaaaa1 refs/heads/master\n".toList)
    ∧ malformedWorld.cat (headPath malformedWorld)
        = .ok (readerOf "ref: refs/heads/missing\n".toList)
    ∧ stringsHasPrefix "ref: refs/heads/missing\n".toList "ref: ".toList = true
    ∧ bytesTrimSpace ("ref: refs/heads/missing\n".toList.drop 5) = "refs/heads/missing".toList
    ∧ (∀ l ∈ (readerOf
          "aaaaaaaaaaaaaaaaaaaaaaaaaaaaaaaaaaaaaaa1 refs/heads/master\n".toList).scanned.tokens,
        "refs/heads/missing".toList ∉ stringsSplit '\t' l)
    ∧ speakGit malformedWorld ⟨scanLines "list\n".toList, none⟩
        = [.cat (refsPath malformedWorld),
            .send (some (.whatIsThis
              ["aaaaaaaaaaaaaaaaaaaaaaaaaaaaaaaaaaaaaaa1 refs/heads/master".toList]))]
    ∧ sent (speakGit malformedWorld ⟨scanLines "list\n".toList, none⟩)
        ≠ [some (.unknownHEAD "refs/heads/missing".toList)] := by
  refine ⟨rfl, rfl, by decide, by decide, by decide, by decide, by decide⟩

/-- C7: for every manifest with at least one line that does not split on the
tab into exactly two fields, whatever its other lines, its scanner error and
the content of `HEAD`, a line beginning with `list` requests `info/refs`,
sends the malformed-manifest error carrying the fields of such a line, and
stops: `HEAD` is not requested, nothing is written, no further line is
processed. -/
theorem C7_malformed_manifest (w : World) (n : Nat) (text : Str) (rest : List Str)
    (err : Option Cause) (refsCat : Reader)
    (hlist : stringsHasPrefix text "list".toList = true)
    (hrefs : w.cat (refsPath w) = .ok refsCat)
    (hbad : ∃ l ∈ refsCat.scanned.tokens, (stringsSplit '\t' l).length ≠ 2) :
    ∃ l ∈ refsCat.scanned.tokens, (stringsSplit '\t' l).length ≠ 2
      ∧ speakGitLoop w n (text :: rest) err
          = [.cat (refsPath w), .send (some (.whatIsThis (stringsSplit '\t' l)))]
      ∧ Event.cat (headPath w) ∉ speakGitLoop w n (text :: rest) err
      ∧ output (speakGitLoop w n (text :: rest) err) = [] := by
  obtain ⟨l, hl, hl2, hl3⟩ := scanRefs_error refsCat.scanned.tokens hbad []
  have h : speakGitLine w n text
      = ([.cat (refsPath w), .send (some (.whatIsThis (stringsSplit '\t' l)))], .stop) := by
    rw [speakGitLine_list w n text hlist]
    unfold listCommand
    rw [hrefs]
    simp only [hl3]
  have hloop := speakGitLoop_stop w n text rest err _ h
  refine ⟨l, hl, hl2, hloop, ?_, ?_⟩
  · rw [hloop]
    have := refsPath_ne_headPath w
    simp [Ne.symm this]
  · rw [hloop]
    rfl

theorem C7_malformed_manifest_witness :
    ∃ l ∈ (readerOf
        "aaaaaaaaaaaaaaaaaaaaaaaaaaaaaaaaaaaaaaa1 refs/heads/master\n".toList).scanned.tokens,
      (stringsSplit '\t' l).length ≠ 2
      ∧ speakGitLoop malformedWorld 0 ["list".toList, "capabilities".toList] none
          = [.cat (refsPath malformedWorld),
              .send (some (.whatIsThis (stringsSplit '\t' l)))]
      ∧ Event.cat (headPath malformedWorld)
          ∉ speakGitLoop malformedWorld 0 ["list".toList, "capabilities".toList] none
      ∧ output (speakGitLoop malformedWorld 0 ["list".toList, "capabilities".toList] none)
          = [] :=
  C7_malformed_manifest malformedWorld 0 "list".toList ["capabilities".toList] none
    (readerOf "aaaaaaaaaaaaaaaaaaaaaaaaaaaaaaaaaaaaaaa1 refs/heads/master\n".toList)
    (by decide) rfl (by decide)

/-- C8: for every manifest in which each line splits into exactly two
tab-separated fields and every HEAD content that does not start with `ref: `,
a line beginning with `list` requests `info/refs` and `HEAD`, sends the
illegal-HEAD error carrying the content, writes nothing, and the loop
processes no further line. -/
theorem C8_illegal_head (w : World) (n : Nat) (text : Str) (rest : List Str)
    (err : Option Cause) (refsCat headCat : Reader) (head : Str)
    (hlist : stringsHasPrefix text "list".toList = true)
    (hrefs : w.cat (refsPath w) = .ok refsCat)
    (hscan : refsCat.scanned.err = none)
    (hwf : ∀ l ∈ refsCat.scanned.tokens, (stringsSplit '\t' l).length = 2)
    (hhead : w.cat (headPath w) = .ok headCat)
    (hread : headCat.readAll = .ok head)
    (hstart : stringsHasPrefix head "ref: ".toList = false) :
    speakGitLoop w n (text :: rest) err
        = [.cat (refsPath w), .cat (headPath w), .send (some (.illegalHEAD head))]
    ∧ output (speakGitLoop w n (text :: rest) err) = [] := by
  have h : speakGitLine w n text
      = ([.cat (refsPath w), .cat (headPath w), .send (some (.illegalHEAD head))], .stop) := by
    rw [speakGitLine_list w n text hlist,
      listCommand_resolved w n refsCat headCat head hrefs hwf hscan hhead hread]
    simp only [hstart]
    rfl
  have hl := speakGitLoop_stop w n text rest err _ h
  refine ⟨hl, ?_⟩
  rw [hl]
  rfl

theorem C8_illegal_head_witness :
    speakGitLoop detachedWorld 0 ["list".toList, "capabilities".toList] none
        = [.cat (refsPath detachedWorld), .cat (headPath detachedWorld),
            .send (some (.illegalHEAD "aaaaaaaaaaaaaaaaaaaaaaaaaaaaaaaaaaaaaaa1\n".toList))]
    ∧ output (speakGitLoop detachedWorld 0 ["list".toList, "capabilities".toList] none) = [] :=
  C8_illegal_head detachedWorld 0 "list".toList ["capabilities".toList] none
    (readerOf "aaaaaaaaaaaaaaaaaaaaaaaaaaaaaaaaaaaaaaa1\trefs/heads/master\n".toList)
    (readerOf "aaaaaaaaaaaaaaaaaaaaaaaaaaaaaaaaaaaaaaa1\n".toList)
    "aaaaaaaaaaaaaaaaaaaaaaaaaaaaaaaaaaaaaaa1\n".toList
    (by decide) rfl rfl (by decide) rfl rfl (by decide)

/-- C11: for every input line that is not `capabilities`, does not begin
with `list`, does not begin with `fetch ` and is not empty, the loop sends
exactly one error, which is not nil and carries the line, and that is the
whole trace from this line on: no write, no call of the store or of a
fetcher, no later line processed. -/
theorem C11_unknown_command (w : World) (n : Nat) (text : Str) (rest : List Str)
    (err : Option Cause)
    (hcap : text ≠ "capabilities".toList)
    (hlist : stringsHasPrefix text "list".toList = false)
    (hfetch : stringsHasPrefix text "fetch ".toList = false)
    (hne : text ≠ []) :
    speakGitLoop w n (text :: rest) err = [.send (some (.defaultGitSpeak text))]
    ∧ output (speakGitLoop w n (text :: rest) err) = []
    ∧ sent (speakGitLoop w n (text :: rest) err) = [some (.defaultGitSpeak text)] := by
  have h : speakGitLine w n text = ([.send (some (.defaultGitSpeak text))], .stop) := by
    unfold speakGitLine
    rw [if_neg hcap, hlist, hfetch, if_neg hne]
    simp
  have hl := speakGitLoop_stop w n text rest err _ h
  refine ⟨hl, ?_, ?_⟩
  · rw [hl]; rfl
  · rw [hl]; rfl

theorem C11_unknown_command_witness :
    speakGitLoop scenarioWorld 0 ["fetch".toList, "capabilities".toList] none
        = [.send (some (.defaultGitSpeak "fetch".toList))]
    ∧ output (speakGitLoop scenarioWorld 0 ["fetch".toList, "capabilities".toList] none) = []
    ∧ sent (speakGitLoop scenarioWorld 0 ["fetch".toList, "capabilities".toList] none)
        = [some (.defaultGitSpeak "fetch".toList)] :=
  C11_unknown_command scenarioWorld 0 "fetch".toList ["capabilities".toList] none
    (by decide) (by decide) (by decide) (by decide)

theorem speakGitLine_capabilities (w : World) (n : Nat) :
    speakGitLine w n "capabilities".toList = (capabilitiesResponse, .next) := by
  rfl

/-- C12: for every `n`, `n` consecutive lines `capabilities` cause `n` copies
of the three writes `fetch`, `push`, blank line and nothing else (no call of
the store or of a fetcher, no value sent), after which the loop goes on with
whatever follows; when nothing follows, the run ends with the nil value. -/
theorem C12_capabilities_repeated (w : World) (n k : Nat) (rest : List Str)
    (err : Option Cause) :
    speakGitLoop w k (List.replicate n "capabilities".toList ++ rest) err
        = (List.replicate n capabilitiesResponse).flatten ++ speakGitLoop w (k + n) rest err
    ∧ speakGit w ⟨List.replicate n "capabilities".toList, none⟩
        = (List.replicate n capabilitiesResponse).flatten ++ [.send none] := by
  have hgen : ∀ n k, speakGitLoop w k (List.replicate n "capabilities".toList ++ rest) err
      = (List.replicate n capabilitiesResponse).flatten
          ++ speakGitLoop w (k + n) rest err := by
    intro n
    induction n with
    | zero => intro k; simp
    | succ n ih =>
      intro k
      have hk : k + 1 + n = k + (n + 1) := by omega
      rw [List.replicate_succ, List.cons_append,
        speakGitLoop_next w k _ _ err _ (speakGitLine_capabilities w k), ih (k + 1),
        List.replicate_succ, List.flatten_cons, List.append_assoc, hk]
  have hnil : ∀ n k, speakGitLoop w k (List.replicate n "capabilities".toList) none
      = (List.replicate n capabilitiesResponse).flatten ++ [.send none] := by
    intro n
    induction n with
    | zero => intro k; rfl
    | succ n ih =>
      intro k
      rw [List.replicate_succ,
        speakGitLoop_next w k _ _ none _ (speakGitLine_capabilities w k), ih (k + 1),
        List.replicate_succ, List.flatten_cons, List.append_assoc]
  exact ⟨hgen n k, hnil n 0⟩

/-- C13 (evaluation of the code): the line `push` makes the loop send a
non-nil error, and the waiter that receives it logs it and lets `main`
return, so the exit status is 0, the same as for the nil value. -/
theorem C13_error_exit_status_zero :
    speakGit scenarioWorld ⟨scanLines "push\n".toList, none⟩
        = [.send (some (.defaultGitSpeak "push".toList))]
    ∧ mainWait (some (HelperError.defaultGitSpeak "push".toList))
        = ([HelperError.defaultGitSpeak "push".toList], 0)
    ∧ mainWait (none : Option HelperError) = ([], 0) := by
  decide

/-- C15: every line that begins with `list` is handled exactly as the bare
line `list` is at the same place of the input: the same calls of the store,
the same writes or the same error, the same continuation. -/
theorem C15_list_line_variants (w : World) (n : Nat) (text : Str) (rest : List Str)
    (err : Option Cause) (hlist : stringsHasPrefix text "list".toList = true) :
    speakGitLine w n text = speakGitLine w n "list".toList
    ∧ speakGitLine w n text = listCommand w n
    ∧ speakGitLoop w n (text :: rest) err = speakGitLoop w n ("list".toList :: rest) err := by
  have h1 := speakGitLine_list w n text hlist
  have h2 := speakGitLine_list w n "list".toList (by decide)
  refine ⟨by rw [h1, h2], h1, ?_⟩
  simp only [speakGitLoop, h1, h2]

theorem C15_list_line_variants_witness :
    speakGitLine scenarioWorld 0 "list for-push".toList
      = speakGitLine scenarioWorld 0 "list".toList :=
  (C15_list_line_variants scenarioWorld 0 "list for-push".toList [] none (by decide)).1

/-- C18: for every object id `X` without a space and every two ref names
`N1` and `N2`, the lines `fetch X N1` and `fetch X N2` are handled alike: the
same events (the retrieval calls, all on `X`, the writes, the value sent) and
the same continuation, whatever follows. -/
theorem C18_fetch_name_advisory (w : World) (n : Nat) (X N1 N2 : Str) (rest : List Str)
    (err : Option Cause) (hX : ' ' ∉ X) :
    speakGitLine w n ("fetch ".toList ++ X ++ ' ' :: N1)
        = speakGitLine w n ("fetch ".toList ++ X ++ ' ' :: N2)
    ∧ speakGitLoop w n (("fetch ".toList ++ X ++ ' ' :: N1) :: rest) err
        = speakGitLoop w n (("fetch ".toList ++ X ++ ' ' :: N2) :: rest) err
    ∧ (∀ e ∈ (speakGitLine w n ("fetch ".toList ++ X ++ ' ' :: N1)).1,
        ∀ sha1, (e = .fetchObject sha1 ∨ e = .fetchPackedObject sha1) → sha1 = X) := by
  have h1 := speakGitLine_fetchLine w n X N1 hX
  have h2 := speakGitLine_fetchLine w n X N2 hX
  refine ⟨by rw [h1, h2], ?_, ?_⟩
  · simp only [speakGitLoop, h1, h2]
  · rw [h1]
    intro e he sha1 hs
    cases hl : w.fetchObject X with
    | none =>
      rw [hl] at he
      simp at he
      rcases he with rfl | rfl <;> simp at hs
      exact hs.symm
    | some c =>
      rw [hl] at he
      cases hp : w.fetchPackedObject X with
      | none =>
        rw [hp] at he
        simp at he
        rcases he with rfl | rfl <;> simp at hs <;> exact hs.symm
      | some c2 =>
        rw [hp] at he
        simp at he
        rcases he with rfl | rfl | rfl <;> simp at hs <;> exact hs.symm

theorem C18_fetch_name_advisory_witness :
    ' ' ∉ "aaaa1".toList
    ∧ speakGitLine scenarioWorld 0
        ("fetch ".toList ++ "aaaa1".toList ++ ' ' :: "refs/heads/master".toList)
      = speakGitLine scenarioWorld 0
        ("fetch ".toList ++ "aaaa1".toList ++ ' ' :: "refs/heads/dev".toList) :=
  ⟨by decide,
    (C18_fetch_name_advisory scenarioWorld 0 "aaaa1".toList "refs/heads/master".toList
      "refs/heads/dev".toList [] none (by decide)).1⟩

/-! ## The loop keeps no state between lines -/

theorem output_append (a b : List Event) : output (a ++ b) = output a ++ output b := by
  induction a with
  | nil => rfl
  | cons e a ih => cases e <;> simp [output, ih]

theorem speakGitLine_shiftRange (w : World) (i n : Nat) (text : Str) :
    speakGitLine (shiftRange w i) n text = speakGitLine w (i + n) text := by
  rfl

/-- The output of a run over the single line `text`, when the line lets the
loop read on, is the output of the line. -/
theorem output_alone (w : World) (text : Str) (h : (speakGitLine w 0 text).2 = .next) :
    output (speakGit w ⟨[text], none⟩) = output (speakGitLine w 0 text).1 := by
  have hline : speakGitLine w 0 text = ((speakGitLine w 0 text).1, .next) := by
    rw [← h]
  unfold speakGit
  rw [speakGitLoop_next w 0 text [] none _ hline, output_append]
  simp [speakGitLoop, output]

theorem speakGitLoop_allNext (w : World) (texts : List Str) :
    ∀ n, allNext w n texts →
      speakGitLoop w n texts none = linesEvents w n texts ++ [.send none] := by
  intro n h
  have := speakGitLoop_append w texts [] none n h
  simpa [speakGitLoop] using this

theorem output_linesEvents (w : World) (texts : List Str) :
    ∀ n, allNext w n texts → output (linesEvents w n texts) = aloneOutput w n texts := by
  induction texts with
  | nil => intro n _; rfl
  | cons text texts ih =>
    intro n h
    have h0 : (speakGitLine (shiftRange w n) 0 text).2 = .next := by
      rw [speakGitLine_shiftRange]
      exact h.1
    rw [linesEvents, aloneOutput, output_append, ih (n + 1) h.2,
      output_alone (shiftRange w n) text h0, speakGitLine_shiftRange]
    rfl

theorem listCommand_range_fixed (w : World) (h : ∀ i, w.mapRange i = w.mapRange 0) (n : Nat) :
    listCommand w n = listCommand w 0 := by
  unfold listCommand
  simp only [h n]

theorem speakGitLine_range_fixed (w : World) (h : ∀ i, w.mapRange i = w.mapRange 0)
    (n : Nat) (text : Str) : speakGitLine w n text = speakGitLine w 0 text := by
  unfold speakGitLine
  rw [listCommand_range_fixed w h n]

theorem aloneOutput_range_fixed (w : World) (h : ∀ i, w.mapRange i = w.mapRange 0)
    (texts : List Str) :
    ∀ n, allNext w n texts →
      aloneOutput w n texts
        = (texts.map (fun t => output (speakGit w ⟨[t], none⟩))).flatten := by
  induction texts with
  | nil => intro n _; rfl
  | cons text texts ih =>
    intro n hn
    have h0 : (speakGitLine (shiftRange w n) 0 text).2 = .next := by
      rw [speakGitLine_shiftRange]
      exact hn.1
    have h1 : (speakGitLine w 0 text).2 = .next := by
      rw [← speakGitLine_range_fixed w h n text]
      exact hn.1
    rw [aloneOutput, ih (n + 1) hn.2, List.map_cons, List.flatten_cons,
      output_alone (shiftRange w n) text h0, output_alone w text h1,
      speakGitLine_shiftRange, speakGitLine_range_fixed w h (n + 0) text]

/-- C14: for a fixed store and every input whose lines all let the loop read
on (so none is empty and none is fatal), followed by the end of the input,
the trace is the events of the lines in input order followed by one send of
nil; the output is the concatenation, in input order, of the output that each
line produces as the only line of an input over the same store (the `range`
of a `list` taking the order it takes in the run); and when the order of
`range` does not change from line to line, it is the concatenation of the
outputs of the runs of `speakGit` on each single line. -/
theorem C14_lines_independent (w : World) (texts : List Str) (h : allNext w 0 texts) :
    speakGit w ⟨texts, none⟩ = linesEvents w 0 texts ++ [.send none]
    ∧ output (speakGit w ⟨texts, none⟩) = aloneOutput w 0 texts
    ∧ sent (speakGit w ⟨texts, none⟩) = [none]
    ∧ ((∀ i, w.mapRange i = w.mapRange 0) →
        output (speakGit w ⟨texts, none⟩)
          = (texts.map (fun t => output (speakGit w ⟨[t], none⟩))).flatten) := by
  have ht : speakGit w ⟨texts, none⟩ = linesEvents w 0 texts ++ [.send none] :=
    speakGitLoop_allNext w texts 0 h
  have ho : output (speakGit w ⟨texts, none⟩) = aloneOutput w 0 texts := by
    rw [ht, output_append, output_linesEvents w texts 0 h]
    simp [output]
  refine ⟨ht, ho, ?_, ?_⟩
  · rw [ht, sent_append, sent_linesEvents w texts 0 h]
    rfl
  · intro hfix
    rw [ho, aloneOutput_range_fixed w hfix texts 0 h]

theorem C14_lines_independent_witness :
    output (speakGit scenarioWorld
        ⟨["capabilities".toList, "list".toList, "list".toList], none⟩)
      = (["capabilities".toList, "list".toList, "list".toList].map
          (fun t => output (speakGit scenarioWorld ⟨[t], none⟩))).flatten
    ∧ sent (speakGit scenarioWorld
        ⟨["capabilities".toList, "list".toList, "list".toList], none⟩) = [none] :=
  ⟨(C14_lines_independent scenarioWorld
      ["capabilities".toList, "list".toList, "list".toList]
      ⟨by decide, by decide, by decide, trivial⟩).2.2.2 (fun _ => rfl),
   (C14_lines_independent scenarioWorld
      ["capabilities".toList, "list".toList, "list".toList]
      ⟨by decide, by decide, by decide, trivial⟩).2.2.1⟩

/-! ## At most one value is sent, and it ends the trace -/

theorem listCommand_stop_shape (w : World) (n : Nat) (h : (listCommand w n).2 = .stop) :
    (listCommand w n).1 ≠ [] ∧ sent (listCommand w n).1.dropLast = [] := by
  revert h
  unfold listCommand
  dsimp only
  repeat' split
  all_goals simp [sent]

theorem fetchCommand_stop_shape (w : World) (text : Str)
    (h : (fetchCommand w text).2 = .stop) :
    (fetchCommand w text).1 ≠ [] ∧ sent (fetchCommand w text).1.dropLast = [] := by
  revert h
  unfold fetchCommand
  dsimp only
  repeat' split
  all_goals simp [sent]

theorem speakGitLine_stop_shape (w : World) (n : Nat) (text : Str)
    (h : (speakGitLine w n text).2 = .stop) :
    (speakGitLine w n text).1 ≠ [] ∧ sent (speakGitLine w n text).1.dropLast = [] := by
  revert h
  unfold speakGitLine
  split
  · simp
  · split
    · exact listCommand_stop_shape w n
    · split
      · exact fetchCommand_stop_shape w text
      · split <;> simp [sent]

/-- Every trace of the loop is not empty, and nothing is sent before its
last event. -/
theorem speakGitLoop_shape (w : World) (texts : List Str) (err : Option Cause) :
    ∀ n, speakGitLoop w n texts err ≠ []
      ∧ sent (speakGitLoop w n texts err).dropLast = [] := by
  induction texts with
  | nil =>
    intro n
    cases err <;> simp [speakGitLoop, sent]
  | cons text texts ih =>
    intro n
    cases hf : (speakGitLine w n text).2 with
    | next =>
      have hline : speakGitLine w n text = ((speakGitLine w n text).1, .next) := by
        rw [← hf]
      obtain ⟨h1, h2⟩ := ih (n + 1)
      rw [speakGitLoop_next w n text texts err _ hline]
      refine ⟨by simp [h1], ?_⟩
      rw [List.dropLast_append_of_ne_nil _ h1, sent_append,
        sent_speakGitLine_next w n text hf, h2]
      rfl
    | stop =>
      have hline : speakGitLine w n text = ((speakGitLine w n text).1, .stop) := by
        rw [← hf]
      rw [speakGitLoop_stop w n text texts err _ hline]
      exact speakGitLine_stop_shape w n text hf

theorem sent_single (e : Event) : (sent [e]).length ≤ 1 := by
  cases e <;> simp [sent]

/-- C16: on every run of the loop, for every input and every world, at most
one value is sent on `errc`, and a send is the last event of the trace: no
line is processed and nothing is written after it. -/
theorem C16_at_most_one_send (w : World) (input : Scanned) :
    (sent (speakGit w input)).length ≤ 1
    ∧ ∀ pre post v, speakGit w input = pre ++ .send v :: post → post = [] := by
  obtain ⟨h1, h2⟩ := speakGitLoop_shape w input.tokens input.err 0
  have hsplit := List.dropLast_append_getLast h1
  constructor
  · unfold speakGit
    rw [← hsplit, sent_append, h2, List.nil_append]
    exact sent_single _
  · intro pre post v hpost
    unfold speakGit at hpost
    by_contra hne
    rw [hpost] at h2
    have hne2 : Event.send v :: post ≠ [] := by simp
    rw [List.dropLast_append_of_ne_nil _ hne2, List.dropLast_cons_of_ne_nil hne,
      sent_append] at h2
    simp [sent] at h2

/-! ## The guard of the `fetch` case -/

theorem fetch_split_length (text : Str) (h : stringsHasPrefix text "fetch ".toList = true) :
    2 ≤ (stringsSplit ' ' text).length := by
  obtain ⟨t, rfl⟩ := (hasPrefix_iff _ _).1 h
  have h1 : "fetch ".toList ++ t = "fetch".toList ++ ' ' :: t := by
    simp
  have hf : ' ' ∉ "fetch".toList := by decide
  rw [h1, stringsSplit_append_sep _ _ _ hf]
  cases hs : stringsSplit ' ' t with
  | nil => exact absurd hs (stringsSplit_ne_nil _ _)
  | cons f fs => simp

theorem listCommand_no_malformedFetch (w : World) (n : Nat) (t : Str) :
    Event.send (some (.malformedFetch t)) ∉ (listCommand w n).1 := by
  unfold listCommand
  dsimp only
  repeat' split
  all_goals simp [refLine]

theorem fetchCommand_no_malformedFetch (w : World) (text t : Str)
    (h : stringsHasPrefix text "fetch ".toList = true) :
    Event.send (some (.malformedFetch t)) ∉ (fetchCommand w text).1 := by
  have hlen := fetch_split_length text h
  unfold fetchCommand
  dsimp only
  rw [if_neg (by omega)]
  repeat' split
  all_goals simp

theorem speakGitLine_no_malformedFetch (w : World) (n : Nat) (text t : Str) :
    Event.send (some (.malformedFetch t)) ∉ (speakGitLine w n text).1 := by
  unfold speakGitLine
  split
  · simp
  · split
    · exact listCommand_no_malformedFetch w n t
    · split
      · rename_i hf
        exact fetchCommand_no_malformedFetch w text t hf
      · split <;> simp

theorem speakGitLoop_no_malformedFetch (w : World) (texts : List Str) (err : Option Cause)
    (t : Str) :
    ∀ n, Event.send (some (.malformedFetch t)) ∉ speakGitLoop w n texts err := by
  induction texts with
  | nil =>
    intro n
    cases err <;> simp [speakGitLoop]
  | cons text texts ih =>
    intro n
    have hline := speakGitLine_no_malformedFetch w n text t
    cases hf : (speakGitLine w n text).2 with
    | next =>
      have hl : speakGitLine w n text = ((speakGitLine w n text).1, .next) := by
        rw [← hf]
      rw [speakGitLoop_next w n text texts err _ hl, List.mem_append]
      exact fun h => h.elim hline (ih (n + 1))
    | stop =>
      have hl : speakGitLine w n text = ((speakGitLine w n text).1, .stop) := by
        rw [← hf]
      rw [speakGitLoop_stop w n text texts err _ hl]
      exact hline

/-- C19: every line that begins with `fetch ` splits on the space into at
least two fields, so the guard `len(fetchSplit) < 2` is false on it, and no
run of the loop, whatever the input and the world, sends the error
`malformed 'fetch' command`. -/
theorem C19_malformed_fetch_unreachable :
    (∀ text, stringsHasPrefix text "fetch ".toList = true →
        2 ≤ (stringsSplit ' ' text).length)
    ∧ (∀ (w : World) (input : Scanned) (t : Str),
        Event.send (some (.malformedFetch t)) ∉ speakGit w input) :=
  ⟨fetch_split_length, fun w input t =>
    speakGitLoop_no_malformedFetch w input.tokens input.err t 0⟩

theorem C19_malformed_fetch_unreachable_witness :
    stringsHasPrefix "fetch ".toList "fetch ".toList = true
    ∧ 2 ≤ (stringsSplit ' ' "fetch ".toList).length :=
  ⟨by decide, C19_malformed_fetch_unreachable.1 "fetch ".toList (by decide)⟩

/-! ## The keys of the reference map -/

theorem mapSet_keys_nodup (m : RefMap) (k v : Str) (h : (m.map Prod.fst).Nodup) :
    ((mapSet m k v).map Prod.fst).Nodup := by
  unfold mapSet
  rw [List.map_cons, List.nodup_cons]
  constructor
  · intro hk
    obtain ⟨p, hp, hpk⟩ := List.mem_map.1 hk
    have := (List.mem_filter.1 hp).2
    simp at this
    exact this hpk
  · exact h.sublist ((List.filter_sublist m).map Prod.fst)

theorem scanRefs_keys_nodup (tokens : List Str) :
    ∀ m m', scanRefs tokens m = .ok m' → (m.map Prod.fst).Nodup →
      (m'.map Prod.fst).Nodup := by
  induction tokens with
  | nil =>
    intro m m' h hm
    simp only [scanRefs, Except.ok.injEq] at h
    rw [← h]
    exact hm
  | cons l ts ih =>
    intro m m' h hm
    rw [scanRefs] at h
    split at h
    · exact ih _ _ h (mapSet_keys_nodup m _ _ hm)
    · exact absurd h (by simp)

theorem mapGet_mem (m : RefMap) (k v : Str) (h : mapGet m k = some v) : (k, v) ∈ m := by
  induction m with
  | nil => simp [mapGet] at h
  | cons p m ih =>
    obtain ⟨a, b⟩ := p
    by_cases hk : k = a
    · subst hk
      simp [mapGet, List.lookup_cons] at h
      simp [h]
    · have hb : (k == a) = false := by simpa using hk
      simp only [mapGet, List.lookup_cons, hb] at h
      exact List.mem_cons_of_mem _ (ih h)

theorem mem_mapGet (m : RefMap) (k v : Str) (hm : (m.map Prod.fst).Nodup)
    (h : (k, v) ∈ m) : mapGet m k = some v := by
  induction m with
  | nil => simp at h
  | cons p m ih =>
    obtain ⟨a, b⟩ := p
    rw [List.map_cons, List.nodup_cons] at hm
    rcases List.mem_cons.1 h with he | hmem
    · simp only [Prod.mk.injEq] at he
      obtain ⟨rfl, rfl⟩ := he
      simp [mapGet, List.lookup_cons]
    · have hk : k ≠ a := by
        intro e
        subst e
        exact hm.1 (List.mem_map.2 ⟨(k, v), hmem, rfl⟩)
      have hb : (k == a) = false := by simpa using hk
      simp only [mapGet, List.lookup_cons, hb]
      exact ih hm.2 hmem

/-- In a map with distinct keys, the entries under key `k` are the one entry
that the lookup of `k` finds. -/
theorem filter_key_eq (m : RefMap) (k v : Str) (hm : (m.map Prod.fst).Nodup)
    (h : mapGet m k = some v) : m.filter (fun p => p.1 == k) = [(k, v)] := by
  induction m with
  | nil => simp [mapGet] at h
  | cons p m ih =>
    obtain ⟨a, b⟩ := p
    rw [List.map_cons, List.nodup_cons] at hm
    by_cases hk : a = k
    · subst hk
      simp [mapGet, List.lookup_cons] at h
      subst h
      have hnone : m.filter (fun p => p.1 == a) = [] := by
        rw [List.filter_eq_nil_iff]
        intro p hp hpa
        have : p.1 = a := by simpa using hpa
        exact hm.1 (List.mem_map.2 ⟨p, hp, this⟩)
      simp [List.filter_cons, hnone]
    · have hb : (k == a) = false := by simpa using (Ne.symm hk)
      have hb2 : (a == k) = false := by simpa using hk
      simp only [mapGet, List.lookup_cons, hb] at h
      simp only [List.filter_cons, hb2]
      exact ih hm.2 h

theorem foldRefs_append (a b : List Str) (m : RefMap) :
    foldRefs (a ++ b) m = foldRefs b (foldRefs a m) := by
  simp [foldRefs, List.foldl_append]

/-- The last line that binds a ref name decides its object id. -/
theorem mapGet_foldRefs_last (pre post : List Str) (l k v : Str) (m : RefMap)
    (hentry : manifestEntry l = (k, v))
    (hlast : k ∉ post.map (fun l => (manifestEntry l).1)) :
    mapGet (foldRefs (pre ++ l :: post) m) k = some v := by
  rw [foldRefs_append, foldRefs_cons, mapGet_foldRefs_notin k post _ hlast, hentry]
  exact mapGet_mapSet_self _ _ _

/-! ## Successful `list` responses -/

/-- A `list` case that lets the loop read on has read both files, found the
HEAD ref in the map, and written the response. -/
theorem listCommand_next (w : World) (n : Nat) (h : (listCommand w n).2 = .next) :
    ∃ (refsCat headCat : Reader) (head headHash : Str) (ref2hash : RefMap),
      w.cat (refsPath w) = .ok refsCat
      ∧ scanRefs refsCat.scanned.tokens [] = .ok ref2hash
      ∧ w.cat (headPath w) = .ok headCat
      ∧ headCat.readAll = .ok head
      ∧ stringsHasPrefix head "ref: ".toList = true
      ∧ mapGet ref2hash (bytesTrimSpace (head.drop 5)) = some headHash
      ∧ listCommand w n
          = ([.cat (refsPath w), .cat (headPath w), .write (headHash ++ " HEAD\n".toList)]
              ++ (w.mapRange n ref2hash).map refLine ++ [.write "\n".toList], .next) := by
  unfold listCommand at h ⊢
  cases h1 : w.cat (refsPath w) with
  | error e => rw [h1] at h; simp at h
  | ok refsCat =>
    rw [h1] at h
    simp only at h ⊢
    cases h2 : scanRefs refsCat.scanned.tokens [] with
    | error e => rw [h2] at h; simp at h
    | ok ref2hash =>
      rw [h2] at h
      simp only at h ⊢
      cases h3 : refsCat.scanned.err with
      | some e => rw [h3] at h; simp at h
      | none =>
        rw [h3] at h
        simp only at h ⊢
        cases h4 : w.cat (headPath w) with
        | error e => rw [h4] at h; simp at h
        | ok headCat =>
          rw [h4] at h
          simp only at h ⊢
          cases h5 : headCat.readAll with
          | error e => rw [h5] at h; simp at h
          | ok head =>
            rw [h5] at h
            simp only at h ⊢
            by_cases h6 : (!stringsHasPrefix head "ref: ".toList) = true
            · rw [if_pos h6] at h; simp at h
            · rw [if_neg h6] at h ⊢
              cases h7 : mapGet ref2hash (bytesTrimSpace (head.drop 5)) with
              | none => rw [h7] at h; simp at h
              | some headHash =>
                have h8 : stringsHasPrefix head "ref: ".toList = true := by
                  simpa using h6
                refine ⟨refsCat, headCat, head, headHash, ref2hash, ?_, ?_, ?_, ?_, h8, h7, ?_⟩
                all_goals first
                  | rfl
                  | assumption

/-- C17: for every manifest in which each line splits into exactly two
tab-separated fields and in which `l` is the last line that carries ref name
`k`, with object id `v` (whatever earlier lines carry `k`), a successful
`list` writes the HEAD line `<headHash> HEAD` and then, for each entry of a
list of (ref, oid) entries, the line `<oid> <ref>`; exactly one entry has ref
name `k`, and it carries `v`, so the line `<v> <k>` is among the lines after
the HEAD line; and if the trimmed HEAD ref is `k`, then `headHash` is `v`. -/
theorem C17_last_write_wins (w : World) (n : Nat) (text : Str) (refsCat headCat : Reader)
    (head : Str) (pre post : List Str) (l k v : Str)
    (hlist : stringsHasPrefix text "list".toList = true)
    (hrefs : w.cat (refsPath w) = .ok refsCat)
    (hwf : ∀ l ∈ refsCat.scanned.tokens, (stringsSplit '\t' l).length = 2)
    (hhead : w.cat (headPath w) = .ok headCat)
    (hread : headCat.readAll = .ok head)
    (htokens : refsCat.scanned.tokens = pre ++ l :: post)
    (hentry : manifestEntry l = (k, v))
    (hlast : k ∉ post.map (fun l => (manifestEntry l).1))
    (hsucc : (speakGitLine w n text).2 = .next) :
    ∃ (headHash : Str) (entries : RefMap),
      speakGitLine w n text
          = ([.cat (refsPath w), .cat (headPath w), .write (headHash ++ " HEAD\n".toList)]
              ++ entries.map
                  (fun p => Event.write (p.2 ++ " ".toList ++ p.1 ++ "\n".toList))
              ++ [.write "\n".toList], .next)
      ∧ entries.filter (fun p => p.1 == k) = [(k, v)]
      ∧ Event.write (v ++ " ".toList ++ k ++ "\n".toList)
          ∈ (speakGitLine w n text).1.drop 3
      ∧ (bytesTrimSpace (head.drop 5) = k → headHash = v) := by
  have hnd : ((foldRefs refsCat.scanned.tokens []).map Prod.fst).Nodup :=
    scanRefs_keys_nodup _ [] _ (scanRefs_ok _ hwf []) (by simp)
  have hk : mapGet (foldRefs refsCat.scanned.tokens []) k = some v := by
    rw [htokens]
    exact mapGet_foldRefs_last pre post l k v [] hentry hlast
  rw [speakGitLine_list w n text hlist] at hsucc ⊢
  obtain ⟨refsCat', headCat', head', headHash, ref2hash, e1, e2, e3, e4, _, e5, e6⟩ :=
    listCommand_next w n hsucc
  rw [hrefs] at e1
  cases e1
  rw [scanRefs_ok _ hwf [], Except.ok.injEq] at e2
  subst e2
  rw [hhead] at e3
  cases e3
  rw [hread] at e4
  cases e4
  have hlines : ∀ entries : RefMap, entries.map refLine
      = entries.map (fun p => Event.write (p.2 ++ " ".toList ++ p.1 ++ "\n".toList)) :=
    fun _ => rfl
  rw [hlines] at e6
  have hfilter : (w.mapRange n (foldRefs refsCat.scanned.tokens [])).filter
      (fun p => p.1 == k) = [(k, v)] := by
    have hp := (w.mapRange_perm n (foldRefs refsCat.scanned.tokens [])).filter
      (fun p => p.1 == k)
    rw [filter_key_eq _ k v hnd hk] at hp
    exact List.perm_singleton.1 hp
  have hmem : (k, v) ∈ w.mapRange n (foldRefs refsCat.scanned.tokens []) := by
    have : (k, v) ∈ (w.mapRange n (foldRefs refsCat.scanned.tokens [])).filter
        (fun p => p.1 == k) := by
      rw [hfilter]
      simp
    exact (List.mem_filter.1 this).1
  refine ⟨headHash, w.mapRange n (foldRefs refsCat.scanned.tokens []), e6, hfilter, ?_, ?_⟩
  · rw [e6]
    simp only [List.cons_append, List.nil_append, List.drop_succ_cons, List.drop_zero,
      List.mem_append, List.mem_map]
    exact Or.inl ⟨(k, v), hmem, rfl⟩
  · intro hR
    rw [hR, hk] at e5
    exact (Option.some.inj e5).symm

theorem C17_last_write_wins_witness :
    (∃ (headHash : Str) (entries : RefMap),
      speakGitLine duplicateWorld 0 "list".toList
          = ([.cat (refsPath duplicateWorld), .cat (headPath duplicateWorld),
                .write (headHash ++ " HEAD\n".toList)]
              ++ entries.map
                  (fun p => Event.write (p.2 ++ " ".toList ++ p.1 ++ "\n".toList))
              ++ [.write "\n".toList], .next)
      ∧ entries.filter (fun p => p.1 == "refs/heads/master".toList)
          = [("refs/heads/master".toList, "bbbbbbbbbbbbbbbbbbbbbbbbbbbbbbbbbbbbbbb2".toList)]
      ∧ Event.write ("bbbbbbbbbbbbbbbbbbbbbbbbbbbbbbbbbbbbbbb2".toList ++ " ".toList
            ++ "refs/heads/master".toList ++ "\n".toList)
          ∈ (speakGitLine duplicateWorld 0 "list".toList).1.drop 3
      ∧ (bytesTrimSpace ("ref: refs/heads/master\n".toList.drop 5)
            = "refs/heads/master".toList →
          headHash = "bbbbbbbbbbbbbbbbbbbbbbbbbbbbbbbbbbbbbbb2".toList))
    ∧ speakGitLine duplicateWorld 0 "list".toList
        = ([.cat (refsPath duplicateWorld), .cat (headPath duplicateWorld),
            .write "bbbbbbbbbbbbbbbbbbbbbbbbbbbbbbbbbbbbbbb2 HEAD\n".toList,
            .write "bbbbbbbbbbbbbbbbbbbbbbbbbbbbbbbbbbbbbbb2 refs/heads/master\n".toList,
            .write "\n".toList], .next) :=
  ⟨C17_last_write_wins duplicateWorld 0 "list".toList
    (readerOf ("aaaaaaaaaaaaaaaaaaaaaaaaaaaaaaaaaaaaaaa1\trefs/heads/master\n"
      ++ "bbbbbbbbbbbbbbbbbbbbbbbbbbbbbbbbbbbbbbb2\trefs/heads/master\n").toList)
    (readerOf "ref: refs/heads/master\n".toList) "ref: refs/heads/master\n".toList
    ["aaaaaaaaaaaaaaaaaaaaaaaaaaaaaaaaaaaaaaa1\trefs/heads/master".toList] []
    "bbbbbbbbbbbbbbbbbbbbbbbbbbbbbbbbbbbbbbb2\trefs/heads/master".toList
    "refs/heads/master".toList "bbbbbbbbbbbbbbbbbbbbbbbbbbbbbbbbbbbbbbb2".toList
    (by decide) rfl (by decide) rfl rfl (by decide) (by decide) (by decide) (by decide),
   by decide⟩

/-- C20: in every successful `list` response, the first line written is
`<headHash> HEAD`, and the lines that follow are, for each entry of a list of
(ref, oid) entries, the line `<oid> <ref>`; the list holds an entry for the
trimmed remainder of the HEAD descriptor after `ref: `, every entry with that
ref name carries `headHash`, and so the line `<headHash> <that ref>` is among
the lines written after the HEAD line. -/
theorem C20_head_line_matches_ref_line (w : World) (n : Nat) (text : Str)
    (hlist : stringsHasPrefix text "list".toList = true)
    (hsucc : (speakGitLine w n text).2 = .next) :
    ∃ (headCat : Reader) (head headHash : Str) (entries : RefMap),
      w.cat (headPath w) = .ok headCat
      ∧ headCat.readAll = .ok head
      ∧ stringsHasPrefix head "ref: ".toList = true
      ∧ speakGitLine w n text
          = ([.cat (refsPath w), .cat (headPath w), .write (headHash ++ " HEAD\n".toList)]
              ++ entries.map
                  (fun p => Event.write (p.2 ++ " ".toList ++ p.1 ++ "\n".toList))
              ++ [.write "\n".toList], .next)
      ∧ (bytesTrimSpace (head.drop 5), headHash) ∈ entries
      ∧ Event.write (headHash ++ " ".toList ++ bytesTrimSpace (head.drop 5) ++ "\n".toList)
          ∈ (speakGitLine w n text).1.drop 3
      ∧ ∀ p ∈ entries, p.1 = bytesTrimSpace (head.drop 5) → p.2 = headHash := by
  rw [speakGitLine_list w n text hlist] at hsucc ⊢
  obtain ⟨refsCat, headCat, head, headHash, ref2hash, _, e2, e3, e4, hstart, e5, e6⟩ :=
    listCommand_next w n hsucc
  have hnd : (ref2hash.map Prod.fst).Nodup := scanRefs_keys_nodup _ [] _ e2 (by simp)
  have hperm := w.mapRange_perm n ref2hash
  have hlines : ∀ entries : RefMap, entries.map refLine
      = entries.map (fun p => Event.write (p.2 ++ " ".toList ++ p.1 ++ "\n".toList)) :=
    fun _ => rfl
  rw [hlines] at e6
  have hmem : (bytesTrimSpace (head.drop 5), headHash) ∈ w.mapRange n ref2hash :=
    hperm.mem_iff.2 (mapGet_mem _ _ _ e5)
  refine ⟨headCat, head, headHash, w.mapRange n ref2hash, e3, e4, hstart, e6, hmem, ?_, ?_⟩
  · rw [e6]
    simp only [List.cons_append, List.nil_append, List.drop_succ_cons, List.drop_zero,
      List.mem_append, List.mem_map]
    exact Or.inl ⟨(bytesTrimSpace (head.drop 5), headHash), hmem, rfl⟩
  · intro p hp hp1
    have hmem2 : (p.1, p.2) ∈ ref2hash := hperm.mem_iff.1 hp
    have := mem_mapGet ref2hash p.1 p.2 hnd hmem2
    rw [hp1, e5] at this
    exact (Option.some.inj this).symm

theorem C20_head_line_matches_ref_line_witness :
    (∃ (headCat : Reader) (head headHash : Str) (entries : RefMap),
      scenarioWorld.cat (headPath scenarioWorld) = .ok headCat
      ∧ headCat.readAll = .ok head
      ∧ stringsHasPrefix head "ref: ".toList = true
      ∧ speakGitLine scenarioWorld 0 "list".toList
          = ([.cat (refsPath scenarioWorld), .cat (headPath scenarioWorld),
                .write (headHash ++ " HEAD\n".toList)]
              ++ entries.map
                  (fun p => Event.write (p.2 ++ " ".toList ++ p.1 ++ "\n".toList))
              ++ [.write "\n".toList], .next)
      ∧ (bytesTrimSpace (head.drop 5), headHash) ∈ entries
      ∧ Event.write (headHash ++ " ".toList ++ bytesTrimSpace (head.drop 5) ++ "\n".toList)
          ∈ (speakGitLine scenarioWorld 0 "list".toList).1.drop 3
      ∧ ∀ p ∈ entries, p.1 = bytesTrimSpace (head.drop 5) → p.2 = headHash)
    ∧ speakGitLine scenarioWorld 0 "list".toList
        = ([.cat (refsPath scenarioWorld), .cat (headPath scenarioWorld),
            .write "aaaaaaaaaaaaaaaaaaaaaaaaaaaaaaaaaaaaaaa1 HEAD\n".toList,
            .write "bbbbbbbbbbbbbbbbbbbbbbbbbbbbbbbbbbbbbbb2 refs/heads/dev\n".toList,
            .write "aaaaaaaaaaaaaaaaaaaaaaaaaaaaaaaaaaaaaaa1 refs/heads/master\n".toList,
            .write "\n".toList], .next) :=
  ⟨C20_head_line_matches_ref_line scenarioWorld 0 "list".toList (by decide) (by decide),
   by decide⟩

end GitRemoteIpfs
